import Mathlib

/-
  Verification of the dynamic-array standard library and dynamic-value engine
  of the ts2wasm runtime library.

  Shallow embedding of:
  - `runtime-library/stdlib/lib_array.c`  (growable array engine)
  - `runtime-library/dyntype/dyntype.c`   (dynamic value engine)

  Conventions:
  - A WasmGC fixed-capacity host array is modelled as a `List α`; its length is
    the capacity.  The host primitives (`wasm_array_obj_get_elem`,
    `wasm_array_obj_copy`, `wasm_array_obj_new_with_type`) are modelled after
    the collaborator contract in spec section 6; they are bounds-unchecked in C,
    so the read primitive returns `none` on an out-of-range index (undefined
    behaviour in the C code), and the copy primitive is used only at indices the
    theorems prove in bounds.
  - `uint32` quantities are `Nat` with the wrap-around written explicitly as
    `% 4294967296` (`u32`); `int` quantities are `Int`.
  - C functions that set a wasm exception are modelled by also returning the
    list of exception messages set during the call, in order.
-/

namespace TsRuntime

/-- `ARRAY_GROW_REDUNDANCE` (lib_array.c line 14): extra slots allocated when
growing an array. -/
def ARRAY_GROW_REDUNDANCE : Nat := 16

/-- `uint32` wrap-around: all array lengths and capacities are `uint32` in C. -/
def u32 (n : Nat) : Nat := n % 4294967296

/-- The array struct (see utils.c lines 10-19): field 0 is the storage
(a fixed-capacity WasmGC array whose allocated length is the capacity),
field 1 is the logical length. -/
structure ArrayStruct (α : Type) where
  storage : List α
  length : Nat
deriving Repr, DecidableEq

/-- `get_array_capacity` (utils.c 40-46): the allocated length of the storage. -/
def ArrayStruct.capacity (a : ArrayStruct α) : Nat := a.storage.length

/-- The well-formedness invariant of spec section 3: `length ≤ capacity`. -/
def ArrayStruct.wf (a : ArrayStruct α) : Prop := a.length ≤ a.storage.length

instance (a : ArrayStruct α) : Decidable a.wf := by unfold ArrayStruct.wf; infer_instance

/-- The live elements of an array: storage slots `[0, length)`. -/
def ArrayStruct.live (a : ArrayStruct α) : List α := a.storage.take a.length

/-- `wasm_array_obj_get_elem` on an `int`-typed index: unchecked host read;
`none` models an out-of-bounds access (undefined behaviour in C). -/
def getI (a : List α) (i : Int) : Option α :=
  if i < 0 then none else a.get? i.toNat

/-- `wasm_array_obj_copy dst d src s n` (spec section 6 host contract): copies
`n` elements of `src` starting at `s` over `dst` starting at `d`.  The source
slice is taken from the pre-call `src`, i.e. memmove semantics for overlapping
self-copies.  Faithful for in-bounds arguments (which every use below proves);
the C primitive is bounds-unchecked. -/
def hostCopy (dst : List α) (d : Nat) (src : List α) (s : Nat) (n : Nat) : List α :=
  dst.take d ++ ((src.drop s).take n ++ dst.drop (d + n))

/-- `array_push_generic` (lib_array.c 16-55): appends the elements of `value`
to `obj` in place, growing the storage by `ARRAY_GROW_REDUNDANCE` extra slots
when `len + value_len >= capacity`; returns the updated receiver and the new
length (returned as a double in C). -/
def array_push_generic (dflt : α) (obj value : ArrayStruct α) : ArrayStruct α × Nat :=
  let len := obj.length
  let value_len := value.length
  let capacity := obj.capacity
  let storage1 :=
    if capacity ≤ u32 (len + value_len) then
      -- current array space not enough, create new array
      let new_len := u32 (len + value_len + ARRAY_GROW_REDUNDANCE)
      let new_arr := List.replicate new_len dflt
      let new_arr := hostCopy new_arr 0 obj.storage 0 len
      hostCopy new_arr len value.storage 0 value_len
    else
      -- append in current array
      hostCopy obj.storage len value.storage 0 value_len
  ({ storage := storage1, length := u32 (len + value_len) }, u32 (len + value_len))

/-- `ARRAY_POP_API` (lib_array.c 57-86): the one algorithm shared by the
`array_pop_f64/f32/i64/i32/anyref` specializations.  On an empty receiver it
sets the "array is empty" exception and returns 0/NULL (modelled `none`)
without touching the receiver; otherwise it reads the last element and
decrements the length field. -/
def array_pop (obj : ArrayStruct α) : ArrayStruct α × Option α × List String :=
  let len := obj.length
  if len = 0 then
    (obj, none, ["array is empty"])
  else
    let value := getI obj.storage ((len : Int) - 1)
    ({ obj with length := len - 1 }, value, [])

/-- `ARRAY_SHIFT_API` (lib_array.c 321-361): the one algorithm shared by the
`array_shift_*` specializations.  NOTE: the C body does *not* return after
raising the empty-array exception (unlike pop); it continues, computes
`len - 1` in `uint32` (wrapping to 4294967295 when `len = 0`), allocates a
replacement storage of that size, copies, and overwrites the receiver's
storage and length fields unconditionally.  The allocation is modelled as
succeeding; on failure the C code also only sets an exception and continues. -/
def array_shift (dflt : α) (obj : ArrayStruct α) : ArrayStruct α × Option α × List String :=
  let len := obj.length
  let exn0 := if len = 0 then ["array is empty:undefined"] else []
  let value := getI obj.storage 0
  let new_arr := List.replicate (u32 (len + 4294967295)) dflt
  let new_arr := hostCopy new_arr 0 obj.storage 1 (u32 (len + 4294967295))
  ({ storage := new_arr, length := u32 (len + 4294967295) }, value, exn0)

/-- A dynamic (`any`-boxed) argument as dispatched by the array methods through
`dyntype_is_number` / `dyntype_is_undefined` / otherwise.  Numbers carry the
already-truncated integer value (the C code converts the double with an `(int)`
cast or an assignment to `int`). -/
inductive DynArg where
  | num (n : Int)
  | undefArg
  | other
deriving Repr, DecidableEq

/-- Normalized start index of `array_splice_generic` (lib_array.c 543-554):
clamps `start_idx` into `[0, len]`. -/
def spliceNormStart (start : Int) (len : Nat) : Int :=
  if start < 0 then
    (if (len : Int) < -start then 0 else start + len)
  else if (len : Int) ≤ start then (len : Int)
  else start

/-- Normalized delete count of `array_splice_generic` (lib_array.c 556-574):
non-number/non-undefined arguments leave the initial 0; then clamp into
`[0, len - start_idx]`. -/
def spliceNormDc (dcArg : DynArg) (start_idx : Int) (len : Nat) : Int :=
  let delete_count : Int := match dcArg with
    | .num n => n
    | .undefArg => 0
    | .other => 0
  let delete_count := if delete_count < 0 then 0 else delete_count
  if (len : Int) < start_idx + delete_count then (len : Int) - start_idx else delete_count

/-- `array_splice_generic` (lib_array.c 511-646): removes `delete_count`
elements at the normalized `start`, inserts the elements of `value` in their
place (growing the storage when `len - delete_count + value_len > capacity`),
updates the receiver's length, and returns a fresh array struct holding the
removed elements.  `value = none` models both a NULL `value` and a dynamic
`undefined` (lib_array.c 530-534).  Allocations are modelled as succeeding. -/
def array_splice_generic (dflt : α) (obj : ArrayStruct α) (start : Int)
    (dcArg : DynArg) (value : Option (ArrayStruct α)) :
    ArrayStruct α × ArrayStruct α × List String :=
  let value_len : Nat := match value with
    | some v => v.length
    | none => 0
  let len := obj.length
  let capacity := obj.capacity
  let start_idx := spliceNormStart start len
  let exn0 : List String := match dcArg with
    | .num _ => []
    | .undefArg => []
    | .other => ["delete count undefined"]
  let delete_count := spliceNormDc dcArg start_idx len
  let s := start_idx.toNat
  let d := delete_count.toNat
  let delete_arr := List.replicate d dflt
  let delete_arr := hostCopy delete_arr 0 obj.storage s d
  let storage1 :=
    if capacity < len - d + value_len then
      -- current array space not enough, create new array
      let new_len := u32 (len + value_len - d + ARRAY_GROW_REDUNDANCE)
      let new_arr := List.replicate new_len dflt
      let new_arr := hostCopy new_arr 0 obj.storage 0 s
      let new_arr := hostCopy new_arr (s + value_len) obj.storage (s + d) (len - d - s)
      match value with
      | some v => if 0 < value_len then hostCopy new_arr s v.storage 0 value_len else new_arr
      | none => new_arr
    else
      let arr1 := hostCopy obj.storage (s + value_len) obj.storage (s + d) (len - d - s)
      match value with
      | some v => if 0 < value_len then hostCopy arr1 s v.storage 0 value_len else arr1
      | none => arr1
  ({ storage := storage1, length := u32 (len + value_len - d) },
   { storage := delete_arr, length := d }, exn0)

/-- `array_unshift_generic` (lib_array.c 650-702): prepends the elements of
`value`; the first two branches alias an existing storage, the third grows,
the fourth shifts in place. -/
def array_unshift_generic (dflt : α) (obj value : ArrayStruct α) : ArrayStruct α × Nat :=
  let len := obj.length
  let value_len := value.length
  let capacity := obj.capacity
  if len = 0 ∧ value_len ≠ 0 then
    ({ storage := value.storage, length := value_len }, value_len)
  else if len ≠ 0 ∧ value_len = 0 then
    ({ storage := obj.storage, length := len }, len)
  else if capacity ≤ u32 (len + value_len) then
    -- current array space not enough, create new array
    let new_len := u32 (len + value_len + ARRAY_GROW_REDUNDANCE)
    let new_arr := List.replicate new_len dflt
    let new_arr := hostCopy new_arr 0 value.storage 0 value_len
    let new_arr := hostCopy new_arr value_len obj.storage 0 len
    ({ storage := new_arr, length := u32 (len + value_len) }, u32 (len + value_len))
  else
    let arr1 := hostCopy obj.storage value_len obj.storage 0 len
    let arr1 := hostCopy arr1 0 value.storage 0 value_len
    ({ storage := arr1, length := u32 (len + value_len) }, u32 (len + value_len))

/-- Loop of `array_every_some_generic` (lib_array.c 936-965).  The storage
reference `arrRef` is the one fetched once before the loop (line 925); element
reads go through it even if the callback has replaced the receiver's storage.
The callback `cb` models the closure invocation protocol: it receives the
current element, the index, and the receiver struct, and returns its boolean
result together with the possibly mutated receiver.  `none` models an
out-of-bounds element read.  The C loop test `i < len` is carried as the
count `remaining = len - i` of iterations still to run, making the recursion
structural; `i` itself is threaded unchanged. -/
def everySomeLoop (cb : α → Nat → ArrayStruct α → Bool × ArrayStruct α)
    (arrRef : List α) (is_every : Bool) :
    Nat → Nat → Bool → ArrayStruct α → Option (Bool × ArrayStruct α)
  | _, 0, res, s => some (res, s)
  | i, remaining + 1, res, s =>
    match getI arrRef i with
    | none => none
    | some elem =>
      let r := cb elem i s
      if !r.1 && is_every then some (false, r.2)
      else everySomeLoop cb arrRef is_every (i + 1) remaining (res || r.1) r.2

/-- `array_every_some_generic` (lib_array.c 919-967): `arr_ref` and `len` are
read once before the loop; the result accumulator starts at `false`. -/
def array_every_some_generic (cb : α → Nat → ArrayStruct α → Bool × ArrayStruct α)
    (obj : ArrayStruct α) (is_every : Bool) : Option (Bool × ArrayStruct α) :=
  let len := obj.length
  let arr_ref := obj.storage
  everySomeLoop cb arr_ref is_every 0 len false obj

/-- `array_every_generic` (lib_array.c 968-973). -/
def array_every_generic (cb : α → Nat → ArrayStruct α → Bool × ArrayStruct α)
    (obj : ArrayStruct α) : Option (Bool × ArrayStruct α) :=
  array_every_some_generic cb obj true

/-- `array_some_generic` (lib_array.c 975-980). -/
def array_some_generic (cb : α → Nat → ArrayStruct α → Bool × ArrayStruct α)
    (obj : ArrayStruct α) : Option (Bool × ArrayStruct α) :=
  array_every_some_generic cb obj false

/-- Loop of `array_forEach_generic` (lib_array.c 999-1025).  In contrast to
`everySomeLoop`, the storage reference is re-fetched from the receiver on
every iteration ("Must get arr ref again since it may be changed inside
callback", line 1004), so the element read uses the current state `s`.  As in
`everySomeLoop`, the loop test `i < len` is carried as the remaining
iteration count. -/
def forEachLoop (cb : α → Nat → ArrayStruct α → Bool × ArrayStruct α) :
    Nat → Nat → ArrayStruct α → Option (ArrayStruct α)
  | _, 0, s => some s
  | i, remaining + 1, s =>
    match getI s.storage i with
    | none => none
    | some elem => forEachLoop cb (i + 1) remaining (cb elem i s).2

/-- `array_forEach_generic` (lib_array.c 982-1029): `len` is read once before
the loop; the callback result is discarded; returns a dynamic `undefined`
(not modelled) plus the final receiver state. -/
def array_forEach_generic (cb : α → Nat → ArrayStruct α → Bool × ArrayStruct α)
    (obj : ArrayStruct α) : Option (ArrayStruct α) :=
  let len := obj.length
  forEachLoop cb 0 len obj

/-- Modelled from the spec: the section 4.2 re-entrancy rule says that in every
higher-order array method "the storage reference must be re-fetched from the
array record on every iteration rather than cached once before the loop".
This is the every/some loop as that rule demands it: identical to
`everySomeLoop` except that the element read goes through the receiver's
current storage (the way `forEachLoop` reads).  Used to exhibit the divergence
of `array_every_some_generic` from the rule. -/
def everySomeLoopRefetch (cb : α → Nat → ArrayStruct α → Bool × ArrayStruct α)
    (is_every : Bool) :
    Nat → Nat → Bool → ArrayStruct α → Option (Bool × ArrayStruct α)
  | _, 0, res, s => some (res, s)
  | i, remaining + 1, res, s =>
    match getI s.storage i with
    | none => none
    | some elem =>
      let r := cb elem i s
      if !r.1 && is_every then some (false, r.2)
      else everySomeLoopRefetch cb is_every (i + 1) remaining (res || r.1) r.2

/-- Modelled from the spec: `array_every_generic` as the section 4.2 re-fetch
rule demands it (see `everySomeLoopRefetch`). -/
def array_every_refetch (cb : α → Nat → ArrayStruct α → Bool × ArrayStruct α)
    (obj : ArrayStruct α) : Option (Bool × ArrayStruct α) :=
  everySomeLoopRefetch cb true 0 obj.length false obj

/-- Outcome of a `lastIndexOf` call: a returned double, an out-of-bounds
storage read at the given wrapped index (undefined behaviour in C), or fuel
exhaustion of the model (the C loop would still be running). -/
inductive LastIndexOfOutcome where
  | ret (v : Int)
  | oob (i : Nat)
  | fuelOut
deriving Repr, DecidableEq

/-- Whether a `lastIndexOf` outcome is a normally returned value. -/
def LastIndexOfOutcome.isRet : LastIndexOfOutcome → Bool
  | .ret _ => true
  | _ => false

/-- The backward scan of `ARRAY_LAST_INDEXOF_API` (lib_array.c 838-843):
`for (i = idx; i >= 0; i--)`.  `i` is declared `uint32`, so the loop condition
`i >= 0` is always true and the decrement wraps from 0 to 4294967295; the
model makes the wrap explicit (`u32 (i + 4294967295)` is `i - 1` in `uint32`).
`fuel` bounds how many iterations the model unrolls. -/
def lastIndexOfLoop [DecidableEq α] (arr : List α) (element : α) :
    Nat → Nat → LastIndexOfOutcome
  | _, 0 => .fuelOut
  | i, fuel + 1 =>
    match arr.get? i with
    | none => .oob i
    | some v =>
      if v = element then .ret i
      else lastIndexOfLoop arr element (u32 (i + 4294967295)) fuel

/-- `ARRAY_LAST_INDEXOF_API` (lib_array.c 812-845): the one algorithm shared by
the scalar specializations (f64/f32/i64/i32); `array_lastIndexOf_anyref`
(lib_array.c 852-917) normalizes and scans with the same `uint32` loop and
differs only in the element comparison.  `from_index = none` models a NULL
`from_index_obj`.  The `return -1` after the scan loop (line 844) is
unreachable: the loop condition `i >= 0` on a `uint32` never fails. -/
def array_lastIndexOf [DecidableEq α] (obj : ArrayStruct α) (element : α)
    (from_index : Option Int) (fuel : Nat) : LastIndexOfOutcome :=
  let len := obj.length
  if len = 0 then .ret (-1)
  else
    let idx : Int := match from_index with
      | some n => n
      | none => 0
    if idx < -(len : Int) then .ret (-1)
    else
      let idx : Int :=
        if idx = 0 then (len : Int) - 1
        else if idx < 0 then idx + len
        else if (len : Int) ≤ idx then (len : Int) - 1
        else idx
      lastIndexOfLoop obj.storage element idx.toNat fuel

/-- The ascending scan of `quick_sort` (lib_array.c 452-465):
`do { i++; cmp_res = cmp(pivot, arr[i]); } while (cmp_res > 0.0)`.
The comparator closure is invoked as `cmp(pivot, elem)` and only the sign of
its double result is inspected, so the model carries an integer-valued
comparator.  Returns the final `i`; `none` models an out-of-bounds element
read (the C scan is unbounded) or fuel exhaustion. -/
def scanUp (c : α → α → Int) (pivot : α) (arr : List α) : Int → Nat → Option Int
  | _, 0 => none
  | i, fuel + 1 =>
    let i1 := i + 1
    match getI arr i1 with
    | none => none
    | some elem => if 0 < c pivot elem then scanUp c pivot arr i1 fuel else some i1

/-- The descending scan of `quick_sort` (lib_array.c 467-480):
`do { j--; cmp_res = cmp(pivot, arr[j]); } while (cmp_res < 0.0)`. -/
def scanDown (c : α → α → Int) (pivot : α) (arr : List α) : Int → Nat → Option Int
  | _, 0 => none
  | j, fuel + 1 =>
    let j1 := j - 1
    match getI arr j1 with
    | none => none
    | some elem => if c pivot elem < 0 then scanDown c pivot arr j1 fuel else some j1

/-- The element swap of `quick_sort` (lib_array.c 482-488). -/
def swapI (arr : List α) (i j : Int) : List α :=
  match getI arr i, getI arr j with
  | some left_elem, some right_elem => (arr.set i.toNat right_elem).set j.toNat left_elem
  | _, _ => arr

/-- The partition loop of `quick_sort` (lib_array.c 451-489), Hoare scheme:
while `i < j`, run both scans; if the pointers have not crossed, swap; on exit
the final `j` is the split point.  The scans are given `arr.length + 2` fuel,
enough for any scan that stays in bounds (an out-of-bounds scan is C undefined
behaviour and yields `none` either way). -/
def hoareLoop (c : α → α → Int) (pivot : α) : List α → Int → Int → Nat → Option (List α × Int)
  | _, _, _, 0 => none
  | arr, i, j, fuel + 1 =>
    if i < j then
      match scanUp c pivot arr i (arr.length + 2), scanDown c pivot arr j (arr.length + 2) with
      | some i1, some j1 =>
        if i1 < j1 then hoareLoop c pivot (swapI arr i1 j1) i1 j1 fuel
        else some (arr, j1)
      | _, _ => none
    else some (arr, j)

/-- `quick_sort` (lib_array.c 436-493): recursive quicksort of `arr[l..r]`
driven by a comparator closure.  The pivot is the value of the middle element
`arr[(l + r) >> 1]`; `>> 1` on a C `int` is an arithmetic shift, i.e. flooring
division by 2, which is exactly `Int` division by 2 here.  Partitions with
`hoareLoop` and recurses on `[l, j]` and `[j + 1, r]`.  `fuel` bounds the
recursion depth of the model. -/
def quickSort (c : α → α → Int) : List α → Int → Int → Nat → Option (List α)
  | _, _, _, 0 => none
  | arr, l, r, fuel + 1 =>
    if r ≤ l then some arr
    else
      match getI arr ((l + r) / 2) with
      | none => none
      | some pivot =>
        match hoareLoop c pivot arr (l - 1) (r + 1) (arr.length + 2) with
        | none => none
        | some (arr1, j) =>
          match quickSort c arr1 l j fuel with
          | none => none
          | some arr2 => quickSort c arr2 (j + 1) r fuel

/-- `array_sort_generic` (lib_array.c 495-509): sorts the receiver's storage in
place over `[0, len - 1]` and returns the receiver itself (the struct fields
other than the storage contents are untouched).  With `len = 0` the C computes
`len - 1` in `uint32` and passes it to the `int` parameter `r`, i.e. -1; the
model passes `(len : Int) - 1` directly. -/
def array_sort_generic (c : α → α → Int) (obj : ArrayStruct α) (fuel : Nat) :
    Option (ArrayStruct α) :=
  (quickSort c obj.storage 0 ((obj.length : Int) - 1) fuel).map
    (fun s => { obj with storage := s })

/-- A comparator closure consistent with a total order on the elements
(spec section 4.2: the user comparator returns a negative, zero or positive
number according to the relative order of its arguments; `quick_sort` invokes
it as `cmp(pivot, elem)` and inspects only the sign). -/
def Consistent {α : Type} [LinearOrder α] (c : α → α → Int) : Prop :=
  ∀ x y, (0 < c x y ↔ y < x) ∧ (c x y < 0 ↔ x < y)

/-- The live content of an optional replacement array (empty when absent). -/
def optLive : Option (ArrayStruct α) → List α
  | some w => w.live
  | none => []

/-- The length of an optional replacement array (0 when absent). -/
def optLen : Option (ArrayStruct α) → Nat
  | some w => w.length
  | none => 0

/-! ## Operation sequences (for the capacity-invariant claim) -/

/-- One mutation out of "any finite sequence of push, pop, splice and unshift
operations".  Argument arrays are given as plain element lists; the concrete
run materializes them as exactly-sized well-formed array structs (the engine
reads only the live `[0, value_len)` slots of an argument array). -/
inductive ArrayOp (α : Type) where
  | push (v : List α)
  | pop
  | splice (start : Int) (dcArg : DynArg) (v : Option (List α))
  | unshift (v : List α)
deriving Repr

/-- Run one engine operation on the receiver (the returned values, removed
elements, and exceptions do not affect the receiver and are dropped here). -/
def applyOp (dflt : α) (a : ArrayStruct α) : ArrayOp α → ArrayStruct α
  | .push v => (array_push_generic dflt a ⟨v, v.length⟩).1
  | .pop => (array_pop a).1
  | .splice start dcArg v =>
    (array_splice_generic dflt a start dcArg (v.map (fun l => ⟨l, l.length⟩))).1
  | .unshift v => (array_unshift_generic dflt a ⟨v, v.length⟩).1

/-- Run a sequence of engine operations on the receiver. -/
def applyOps (dflt : α) : ArrayStruct α → List (ArrayOp α) → ArrayStruct α
  | a, [] => a
  | a, op :: ops => applyOps dflt (applyOp dflt a op) ops

/-- Modelled from the spec (the refinement side of the capacity-invariant
claim): the abstract effect of the four mutations on the logical element
list, per the spec section 4.2 method catalog — push appends, pop removes the
last element (an empty pop fails and must leave the receiver intact, spec
section 7), splice removes `deleteCount` elements at the normalized start and
inserts the replacement elements there, unshift prepends. -/
def absApplyOp (l : List α) : ArrayOp α → List α
  | .push v => l ++ v
  | .pop => l.dropLast
  | .splice start dcArg v =>
    let s := (spliceNormStart start l.length).toNat
    let d := (spliceNormDc dcArg (spliceNormStart start l.length) l.length).toNat
    l.take s ++ ((match v with | some w => w | none => []) ++ l.drop (s + d))
  | .unshift v => v ++ l

/-- See `absApplyOp`. -/
def absApplyOps : List α → List (ArrayOp α) → List α
  | l, [] => l
  | l, op :: ops => absApplyOps (absApplyOp l op) ops

/-- No `uint32` wrap occurs in this step's length arithmetic (always true in
reachable states: a wasm32 array cannot have anywhere near 2^32 elements, but
the model's states are not so bounded). -/
def stepOk (a : ArrayStruct α) : ArrayOp α → Prop
  | .push v => a.length + v.length + ARRAY_GROW_REDUNDANCE < 4294967296
  | .pop => True
  | .splice _ _ v =>
    a.length + (match v with | some w => w.length | none => 0) + ARRAY_GROW_REDUNDANCE
      < 4294967296
  | .unshift v => a.length + v.length + ARRAY_GROW_REDUNDANCE < 4294967296

instance (a : ArrayStruct α) (op : ArrayOp α) : Decidable (stepOk a op) := by
  cases op <;> unfold stepOk <;> infer_instance

/-- `stepOk` along a whole sequence. -/
def seqOk (dflt : α) : ArrayStruct α → List (ArrayOp α) → Prop
  | _, [] => True
  | a, op :: ops => stepOk a op ∧ seqOk dflt (applyOp dflt a op) ops

instance seqOkDecidable (dflt : α) :
    (a : ArrayStruct α) → (ops : List (ArrayOp α)) → Decidable (seqOk dflt a ops)
  | _, [] => isTrue trivial
  | a, op :: ops =>
    have : Decidable (seqOk dflt (applyOp dflt a op) ops) :=
      seqOkDecidable dflt (applyOp dflt a op) ops
    instDecidableAnd

/-! ## Dynamic value engine (runtime-library/dyntype/dyntype.c)

The dyntype layer sits on the QuickJS value store, which the spec (section 1,
section 6) treats as an external collaborator.  The `JS_*` primitives below
are therefore modelled from the spec's collaborator contract; every
`dyntype_*` function is translated from dyntype.c on top of them. -/

/-- The dynamic type tags (`dyn_type_t`), spec section 3 tag enumeration plus
the external-reference tags used by `dyntype_typeof`. -/
inductive DynTypeTag where
  | DynUndefined
  | DynNull
  | DynBoolean
  | DynNumber
  | DynString
  | DynObject
  | DynSymbol
  | DynExtRefObj
  | DynExtRefFunc
  | DynExtRefInfc
  | DynExtRefArray
  | DynUnknown
deriving Repr, DecidableEq

/-- `external_ref_tag`: the four external kinds (spec section 3), a C enum
with consecutive values; invalid integers are representable in the C type
(cf. the `(external_ref_tag)(ExtArray + 1)` test in types_test.cc). -/
def ExtObj : Int := 0

/-- See `ExtObj`. -/
def ExtFunc : Int := 1

/-- See `ExtObj`. -/
def ExtInfc : Int := 2

/-- See `ExtObj`. -/
def ExtArray : Int := 3

/-- A QuickJS value (`JSValue`), modelled from the spec section 6 collaborator
contract: primitives are carried inline, objects by reference into the value
store.  The numeric payload is exact (every number the modelled operations
store comes from `JS_NewInt32`); no claim settled here depends on double
rounding. -/
inductive JSVal where
  | vundefined
  | vnull
  | vbool (b : Bool)
  | vnum (n : Int)
  | vstr (s : String)
  | vobj (id : Nat)
deriving Repr, DecidableEq

/-- One object of the value store: a string-keyed data-property table (later
writes replace earlier ones) and a flag marking callable wrapper objects
(`JS_NewCFunctionData`).  Modelled from the spec section 6 contract; the
prototype chain is omitted because every object created by the modelled
operations has the default prototype, which has no user-visible own
properties. -/
structure JSObject where
  props : List (String × JSVal)
  isFunc : Bool
deriving Repr, DecidableEq

/-- The QuickJS value store. -/
structure Heap where
  objs : List JSObject
deriving Repr, DecidableEq

/-- The empty value store. -/
def emptyHeap : Heap := ⟨[]⟩

/-- Modelled from the spec: `JS_NewObject` — allocate a fresh plain object. -/
def jsNewObject (h : Heap) : Heap × JSVal :=
  (⟨h.objs ++ [⟨[], false⟩]⟩, .vobj h.objs.length)

/-- Modelled from the spec: `new_function_wrapper` (dyntype.c 298-312), as
visible through the property operations — a fresh callable object. -/
def newFunctionWrapper (h : Heap) : Heap × JSVal :=
  (⟨h.objs ++ [⟨[], true⟩]⟩, .vobj h.objs.length)

/-- Store/replace a key in a property table. -/
def setAssoc : List (String × JSVal) → String → JSVal → List (String × JSVal)
  | [], k, v => [(k, v)]
  | (k0, v0) :: rest, k, v =>
    if k0 = k then (k0, v) :: rest else (k0, v0) :: setAssoc rest k v

/-- Look a key up in a property table. -/
def getAssoc : List (String × JSVal) → String → Option JSVal
  | [], _ => none
  | (k0, v0) :: rest, k => if k0 = k then some v0 else getAssoc rest k

/-- Modelled from the spec: `JS_SetPropertyStr` — store the data property.
The dyntype layer only calls it on values it has checked with `JS_IsObject`. -/
def jsSetPropertyStr (h : Heap) (v : JSVal) (k : String) (x : JSVal) : Heap :=
  match v with
  | .vobj id =>
    match h.objs.get? id with
    | some o => ⟨h.objs.set id { o with props := setAssoc o.props k x }⟩
    | none => h
  | _ => h

/-- Modelled from the spec: `JS_GetPropertyStr` — an absent property reads as
`undefined` (spec section 4.1). -/
def jsGetPropertyStr (h : Heap) (v : JSVal) (k : String) : JSVal :=
  match v with
  | .vobj id =>
    match h.objs.get? id with
    | some o =>
      match getAssoc o.props k with
      | some x => x
      | none => .vundefined
    | none => .vundefined
  | _ => .vundefined

/-- Modelled from the spec: `JS_HasProperty`. -/
def jsHasProperty (h : Heap) (v : JSVal) (k : String) : Bool :=
  match v with
  | .vobj id =>
    match h.objs.get? id with
    | some o => (getAssoc o.props k).isSome
    | none => false
  | _ => false

/-- `JS_VALUE_GET_INT`: the int32 payload of a `JSValue`; the tagged singleton
values carry payload 0. -/
def jsValueGetInt : JSVal → Int
  | .vnum n => n
  | _ => 0

/-- The dyntype result codes (spec section 6: `Success = 0` plus negative
`TypeError` / `Exception` / `False` sentinels, and the boolean results
`DYNTYPE_TRUE` / `DYNTYPE_FALSE`), modelled as an inductive. -/
inductive DynResult where
  | dSuccess
  | dTypeErr
  | dExc
  | dTrue
  | dFalse
deriving Repr, DecidableEq

/-- `dyntype_is_object` (dyntype.c 643-646): `JS_IsObject`, true exactly for
object references (function wrappers included). -/
def dyntype_is_object : JSVal → Bool
  | .vobj _ => true
  | _ => false

/-- `dyntype_set_property` (dyntype.c 496-506): `TypeError` unless the
receiver is an object, otherwise stores the property.  (`JS_SetPropertyStr`
on a plain data property reports TRUE, mapped to `DYNTYPE_SUCCESS`.) -/
def dyntype_set_property (h : Heap) (obj : JSVal) (prop : String) (value : JSVal) :
    Heap × DynResult :=
  if dyntype_is_object obj = false then (h, .dTypeErr)
  else (jsSetPropertyStr h obj prop value, .dSuccess)

/-- `dyntype_get_property` (dyntype.c 530-542): NULL (`none`) unless the
receiver is an object; otherwise a fresh box holding the property value,
`undefined` when the property is absent. -/
def dyntype_get_property (h : Heap) (obj : JSVal) (prop : String) : Option JSVal :=
  if dyntype_is_object obj = false then none
  else some (jsGetPropertyStr h obj prop)

/-- `dyntype_has_property` (dyntype.c 544-563): `TypeError` unless the
receiver is an object, else the tri-state TRUE/FALSE. -/
def dyntype_has_property (h : Heap) (obj : JSVal) (prop : String) : DynResult :=
  if dyntype_is_object obj = false then .dTypeErr
  else if jsHasProperty h obj prop then .dTrue else .dFalse

/-- `dyntype_is_extref` (dyntype.c 658-665): an object carrying the hidden
`"@tag"` property. -/
def dyntype_is_extref (h : Heap) (obj : JSVal) : Bool :=
  if dyntype_is_object obj = false then false
  else if dyntype_has_property h obj "@tag" = .dTrue then true else false

/-- The C cast `(int32_t)(uintptr_t)ptr` (dyntype.c 454): wrap to int32. -/
def toInt32 (n : Int) : Int := (n + 2147483648) % 4294967296 - 2147483648

/-- `dyntype_new_extref` (dyntype.c 435-458): fails (NULL, here `none`) unless
the tag is one of the four external kinds; allocates a function wrapper for
`ExtFunc` and a plain object otherwise, then stores the hidden properties
`"@tag"` and `"@ref"` (both `JS_NewInt32` values). -/
def dyntype_new_extref (h : Heap) (ptr : Int) (tag : Int) : Option (Heap × JSVal) :=
  if tag ≠ ExtObj ∧ tag ≠ ExtFunc ∧ tag ≠ ExtInfc ∧ tag ≠ ExtArray then none
  else
    let hv := if tag = ExtFunc then newFunctionWrapper h else jsNewObject h
    let h1 := jsSetPropertyStr hv.1 hv.2 "@tag" (.vnum tag)
    let h2 := jsSetPropertyStr h1 hv.2 "@ref" (.vnum (toInt32 ptr))
    some (h2, hv.2)

/-- `dyntype_to_extref` (dyntype.c 667-680): `TypeError` (`none`) when the
value is not an external reference; otherwise the pair of the `"@tag"`
property (the C function's int return value) and the `"@ref"` property
(written through the out-parameter), both read back with
`JS_VALUE_GET_INT`. -/
def dyntype_to_extref (h : Heap) (obj : JSVal) : Option (Int × Int) :=
  if dyntype_is_extref h obj = false then none
  else
    some (jsValueGetInt (jsGetPropertyStr h obj "@tag"),
          jsValueGetInt (jsGetPropertyStr h obj "@ref"))

/-- The underlying quickjs type of a value: `js_operator_typeof1` composed
with `quickjs_type_to_dyn_type` (dyntype.c 146-163, 736-738).  The mapping
table has no entry for the function tag (it is commented out), so a callable
object maps to `DynUnknown`. -/
def jsTypeofTag (h : Heap) : JSVal → DynTypeTag
  | .vundefined => .DynUndefined
  | .vnull => .DynNull
  | .vbool _ => .DynBoolean
  | .vnum _ => .DynNumber
  | .vstr _ => .DynString
  | .vobj id =>
    match h.objs.get? id with
    | some o => if o.isFunc then .DynUnknown else .DynObject
    | none => .DynUnknown

/-- `dyntype_typeof` (dyntype.c 715-739): the external-reference check runs
before the underlying tag (an external reference is also a plain object); an
extref whose stored tag is one of the four kinds reports the corresponding
external tag, any other stored tag falls through to the underlying quickjs
tag. -/
def dyntype_typeof (h : Heap) (obj : JSVal) : DynTypeTag :=
  if dyntype_is_extref h obj then
    match dyntype_to_extref h obj with
    | some tr =>
      if tr.1 = ExtObj then .DynExtRefObj
      else if tr.1 = ExtFunc then .DynExtRefFunc
      else if tr.1 = ExtInfc then .DynExtRefInfc
      else if tr.1 = ExtArray then .DynExtRefArray
      else jsTypeofTag h obj
    | none => jsTypeofTag h obj
  else jsTypeofTag h obj

/-- `cmp_operator`: the comparison tokens (spec section 4.1 lists
`< > <= >= == === != !==`). -/
inductive CmpOp where
  | LessThanToken
  | GreaterThanToken
  | LessThanEqualsToken
  | GreaterThanEqualsToken
  | EqualsEqualsToken
  | EqualsEqualsEqualsToken
  | ExclamationEqualsToken
  | ExclamationEqualsEqualsToken
deriving Repr, DecidableEq

/-- `cmp_operator_has_equal_token` (dyntype.c 137-144): the four
equality-class operators `==`, `===`, `<=`, `>=`. -/
def cmp_operator_has_equal_token : CmpOp → Bool
  | .EqualsEqualsToken => true
  | .EqualsEqualsEqualsToken => true
  | .LessThanEqualsToken => true
  | .GreaterThanEqualsToken => true
  | _ => false

/-- `number_cmp` (dyntype.c 31-64); the payload comparison is exact, see
`JSVal.vnum`. -/
def number_cmp (lhs rhs : Int) : CmpOp → Bool
  | .LessThanToken => decide (lhs < rhs)
  | .GreaterThanToken => decide (rhs < lhs)
  | .EqualsEqualsToken => decide (lhs = rhs)
  | .EqualsEqualsEqualsToken => decide (lhs = rhs)
  | .LessThanEqualsToken => decide (lhs ≤ rhs)
  | .GreaterThanEqualsToken => decide (rhs ≤ lhs)
  | .ExclamationEqualsToken => decide (lhs ≠ rhs)
  | .ExclamationEqualsEqualsToken => decide (lhs ≠ rhs)

/-- `bool_cmp` (dyntype.c 102-135): C bools compare as the integers 0 and 1. -/
def bool_cmp (lhs rhs : Bool) : CmpOp → Bool
  | .LessThanToken => decide (lhs.toNat < rhs.toNat)
  | .GreaterThanToken => decide (rhs.toNat < lhs.toNat)
  | .EqualsEqualsToken => decide (lhs = rhs)
  | .EqualsEqualsEqualsToken => decide (lhs = rhs)
  | .LessThanEqualsToken => decide (lhs.toNat ≤ rhs.toNat)
  | .GreaterThanEqualsToken => decide (rhs.toNat ≤ lhs.toNat)
  | .ExclamationEqualsToken => decide (lhs ≠ rhs)
  | .ExclamationEqualsEqualsToken => decide (lhs ≠ rhs)

/-- `string_cmp` (dyntype.c 66-100): dispatch on the sign of `strcmp`,
modelled with the lexicographic string order. -/
def string_cmp (lhs rhs : String) : CmpOp → Bool
  | .LessThanToken => decide (lhs < rhs)
  | .GreaterThanToken => decide (rhs < lhs)
  | .EqualsEqualsToken => decide (lhs = rhs)
  | .EqualsEqualsEqualsToken => decide (lhs = rhs)
  | .LessThanEqualsToken => decide (lhs ≤ rhs)
  | .GreaterThanEqualsToken => decide (rhs ≤ lhs)
  | .ExclamationEqualsToken => decide (lhs ≠ rhs)
  | .ExclamationEqualsEqualsToken => decide (lhs ≠ rhs)

/-- The out-parameter pattern of `dyntype_cmp` (dyntype.c 760-765): the local
is initialized to 0 and `dyntype_to_bool` leaves it unchanged on a
`TypeError`, so a non-boolean operand reads as `false`. -/
def toBoolOr0 : JSVal → Bool
  | .vbool b => b
  | _ => false

/-- The analogous pattern for `dyntype_to_number` (dyntype.c 767-772). -/
def toNumOr0 : JSVal → Int
  | .vnum n => n
  | _ => 0

/-- Modelled from the spec: the `JS_ToCString` stringification used by the
string branch of `dyntype_cmp`; only its restriction to strings matters for
the claims settled here. -/
def toCString : JSVal → String
  | .vstr s => s
  | .vundefined => "undefined"
  | .vnull => "null"
  | .vbool true => "true"
  | .vbool false => "false"
  | .vnum n => toString n
  | .vobj _ => "[object Object]"

/-- `JS_VALUE_GET_PTR` equality as used by the object branch of `dyntype_cmp`:
two values point at the same store object.  A non-object right operand
compares unequal (its payload is not a valid object pointer). -/
def sameObjPtr : JSVal → JSVal → Bool
  | .vobj a, .vobj b => decide (a = b)
  | _, _ => false

/-- `dyntype_cmp` (dyntype.c 745-819).  `lhs` and `rhs` are value-box handles
(`JSValue *`), modelled as indices into the box store `boxes`; the first test
`lhs == rhs` is pointer identity of the boxes.  An out-of-store handle would
be a wild pointer dereference in C; the model returns `false` there and the
theorems only apply it to valid handles.  In the `DynObject` branch the C
code merely logs ("printf") an anomaly for ordering operators and still
computes identity, so the log has no semantic effect and is not modelled. -/
def dyntype_cmp (h : Heap) (boxes : List JSVal) (lhs rhs : Nat) (op : CmpOp) : Bool :=
  if lhs = rhs then
    cmp_operator_has_equal_token op
  else
    match boxes.get? lhs, boxes.get? rhs with
    | some lv, some rv =>
      match dyntype_typeof h lv with
      | .DynBoolean => bool_cmp (toBoolOr0 lv) (toBoolOr0 rv) op
      | .DynNumber => number_cmp (toNumOr0 lv) (toNumOr0 rv) op
      | .DynNull => cmp_operator_has_equal_token op
      | .DynUndefined =>
        (match op with
         | .EqualsEqualsToken => true
         | .EqualsEqualsEqualsToken => true
         | _ => false)
      | .DynString => string_cmp (toCString lv) (toCString rv) op
      | .DynObject =>
        let res := sameObjPtr lv rv
        (match op with
         | .ExclamationEqualsToken => !res
         | .ExclamationEqualsEqualsToken => !res
         | _ => res)
      | _ => false
    | _, _ => false

/-! # Theorems -/

/-- C10: for every callback closure (and any storage), `array_every_generic`
on an array of length 0 returns `false`: the result accumulator starts at
`false` and the callback loop body never runs, so the empty array is not
treated as vacuously satisfying the predicate. -/
theorem array_every_generic_empty_false {α : Type}
    (cb : α → Nat → ArrayStruct α → Bool × ArrayStruct α) (storage : List α) :
    array_every_generic cb ⟨storage, 0⟩ = some (false, ⟨storage, 0⟩) := by
  rfl

/-- C3 (evaluation of the code at the failing input): `array_pop` on an empty
receiver raises the empty-array error and leaves the receiver untouched, but
`array_shift` on an empty receiver (capacity 1 here, element type arbitrary,
the macro body is shared by every specialization) raises the error and then
*continues*: the receiver's length field is overwritten with `0 - 1` computed
in `uint32`, i.e. 4294967295, and its storage reference is replaced — the
invariant `length ≤ capacity` is destroyed rather than preserved. -/
theorem array_shift_empty_clobbers_receiver :
    array_pop (⟨[37], 0⟩ : ArrayStruct Int) = (⟨[37], 0⟩, none, ["array is empty"]) ∧
    (array_shift (0 : Int) ⟨[37], 0⟩).2.2 = ["array is empty:undefined"] ∧
    (array_shift (0 : Int) ⟨[37], 0⟩).1.length = 4294967295 := by
  exact ⟨rfl, rfl, rfl⟩

/-- Two steps of the lastIndexOf scan on `[1]` searching 2 from index 0: the
first iteration fails to match and wraps the `uint32` counter, the second
reads out of bounds at index 4294967295. -/
theorem lastIndexOfLoop_wrap_oob (fuel : Nat) :
    lastIndexOfLoop ([1] : List Int) 2 0 (fuel + 2) = .oob 4294967295 := by
  have h1 : lastIndexOfLoop ([1] : List Int) 2 0 (fuel + 2)
      = lastIndexOfLoop ([1] : List Int) 2 4294967295 (fuel + 1) := by
    rw [lastIndexOfLoop]
    norm_num [u32]
  have h2 : ([1] : List Int).get? 4294967295 = none := by
    rw [List.get?_eq_getElem?]
    exact List.getElem?_eq_none (by norm_num)
  rw [h1, lastIndexOfLoop, h2]

/-- C9 (evaluation of the code at the failing input): `lastIndexOf` does not
terminate when the search element is absent.  On receiver `[1]` searching 2
(`from_index` NULL): the backward scan visits index 0, and because the loop
counter `i` is a `uint32` the condition `i >= 0` cannot fail — instead of
exiting and returning -1 the counter wraps to 4294967295 and the loop reads
out of bounds.  No fuel makes the model return a value, and from two steps of
fuel on the out-of-bounds read is reached. -/
theorem array_lastIndexOf_not_found_never_returns :
    ∀ fuel : Nat,
      (array_lastIndexOf (⟨[1], 1⟩ : ArrayStruct Int) 2 none fuel).isRet = false ∧
      array_lastIndexOf (⟨[1], 1⟩ : ArrayStruct Int) 2 none (fuel + 2) = .oob 4294967295 := by
  have hmain : ∀ fuel : Nat,
      array_lastIndexOf (⟨[1], 1⟩ : ArrayStruct Int) 2 none fuel
        = lastIndexOfLoop ([1] : List Int) 2 0 fuel := fun _ => rfl
  intro fuel
  refine ⟨?_, by rw [hmain, lastIndexOfLoop_wrap_oob]⟩
  rw [hmain]
  match fuel with
  | 0 => rfl
  | 1 => rfl
  | n + 2 => rw [lastIndexOfLoop_wrap_oob]; rfl

/-- C5 (evaluation of the code at the failing input):
`array_every_some_generic` caches the storage reference before the loop, so a
callback that mutates the receiver (replacing its storage) is *not* observed
by subsequent iterations.  Receiver `[1, 1]`; the callback reports whether
its element equals 1 and replaces the receiver's content with `[5, 5]`.  The
code returns `true` because iteration 1 still reads element 1 from the stale
cached storage, although the receiver's storage by then holds 5 at index 1.
The same loop with the re-fetch rule of spec section 4.2 applied
(`array_every_refetch`, reading exactly the way `array_forEach_generic`
reads) returns `false`. -/
theorem array_every_reads_stale_storage :
    array_every_generic (fun e _ _ => (decide (e = 1), ⟨[5, 5], 2⟩))
        (⟨[1, 1], 2⟩ : ArrayStruct Int) = some (true, ⟨[5, 5], 2⟩) ∧
    array_every_refetch (fun e _ _ => (decide (e = 1), ⟨[5, 5], 2⟩))
        (⟨[1, 1], 2⟩ : ArrayStruct Int) = some (false, ⟨[5, 5], 2⟩) := by
  exact ⟨by decide, by decide⟩

/-- C6: `new_external_reference(ptr = 123, tag = ExternalObject)` yields a
value that satisfies `is_extref`, whose `to_extref` is the pair
`(ExtObj, 123)`, and whose `typeof` is `DynExtRefObj` (the external-reference
check runs before the underlying tag, so the result is not `DynObject`); and
`dyntype_new_extref` fails (NULL) for every tag outside the four external
kinds. -/
theorem dyntype_extref_roundtrip :
    (∃ h1 v, dyntype_new_extref emptyHeap 123 ExtObj = some (h1, v) ∧
      dyntype_is_extref h1 v = true ∧
      dyntype_to_extref h1 v = some (ExtObj, 123) ∧
      dyntype_typeof h1 v = .DynExtRefObj) ∧
    (∀ tag : Int, tag ≠ ExtObj → tag ≠ ExtFunc → tag ≠ ExtInfc → tag ≠ ExtArray →
      ∀ ptr : Int, dyntype_new_extref emptyHeap ptr tag = none) := by
  constructor
  · exact ⟨_, _, rfl, by decide, by decide, by decide⟩
  · intro tag h1 h2 h3 h4 ptr
    unfold dyntype_new_extref
    rw [if_pos ⟨h1, h2, h3, h4⟩]

/-- Witness for `dyntype_extref_roundtrip`: the failure half applied at the
concrete invalid tag `ExtArray + 1 = 4` (the tag the repository's own test
uses). -/
theorem dyntype_extref_roundtrip_witness :
    dyntype_new_extref emptyHeap 123 4 = none :=
  dyntype_extref_roundtrip.2 4 (by decide) (by decide) (by decide) (by decide) 123

/-- The dynamic type of `null` is `DynNull` in any heap: `null` is not an
object, so the external-reference check of `dyntype_typeof` falls through to
the underlying quickjs tag. -/
theorem dyntype_typeof_vnull (h : Heap) : dyntype_typeof h .vnull = .DynNull := by
  simp [dyntype_typeof, dyntype_is_extref, dyntype_is_object, jsTypeofTag]

/-- C7: for every pair of distinct value boxes whose left operand is `null`,
`dyntype_cmp` returns `true` exactly for the equality-class operators
(`==`, `===`, `<=`, `>=`, i.e. `cmp_operator_has_equal_token`) and `false`
for `<`, `>`, `!=`, `!==`, regardless of the value or type of the right
operand. -/
theorem dyntype_cmp_null_lhs (h : Heap) (boxes : List JSVal) (lhs rhs : Nat)
    (op : CmpOp) (hne : lhs ≠ rhs) (hl : boxes.get? lhs = some .vnull)
    (hr : rhs < boxes.length) :
    dyntype_cmp h boxes lhs rhs op = cmp_operator_has_equal_token op := by
  have hr2 : boxes.get? rhs = some (boxes.get ⟨rhs, hr⟩) := List.get?_eq_get hr
  simp only [dyntype_cmp, if_neg hne, hl, hr2, dyntype_typeof_vnull]

/-- Witness for `dyntype_cmp_null_lhs`: box store `[null, 42]`, comparing
`null < 42` yields `false` (`<` is not equality-class). -/
theorem dyntype_cmp_null_lhs_witness :
    dyntype_cmp emptyHeap [.vnull, .vnum 42] 0 1 .LessThanToken
      = cmp_operator_has_equal_token .LessThanToken :=
  dyntype_cmp_null_lhs emptyHeap [.vnull, .vnum 42] 0 1 .LessThanToken
    (by decide) (by decide) (by decide)

/-- Looking up the key just stored in a property table finds the stored
value. -/
theorem getAssoc_setAssoc (l : List (String × JSVal)) (k : String) (v : JSVal) :
    getAssoc (setAssoc l k v) k = some v := by
  induction l with
  | nil => simp [setAssoc, getAssoc]
  | cons p rest ih =>
    obtain ⟨k0, v0⟩ := p
    by_cases hk : k0 = k
    · simp [setAssoc, getAssoc, hk]
    · simp [setAssoc, getAssoc, hk, ih]

/-- C8: property round-trip.  For every heap, every object `obj` (an object
reference valid in the heap), property name `k` and value `v`:
`set_property obj k v` succeeds, and afterwards `get_property obj k` returns
a box holding exactly `v` (hence equal by the engine's own equality) and
`has_property obj k` is `DYNTYPE_TRUE`. -/
theorem dyntype_set_get_has_roundtrip (h : Heap) (id : Nat) (k : String)
    (v : JSVal) (hid : id < h.objs.length) :
    (dyntype_set_property h (.vobj id) k v).2 = .dSuccess ∧
    dyntype_get_property (dyntype_set_property h (.vobj id) k v).1 (.vobj id) k
      = some v ∧
    dyntype_has_property (dyntype_set_property h (.vobj id) k v).1 (.vobj id) k
      = .dTrue := by
  have hobj : h.objs[id]? = some (h.objs.get ⟨id, hid⟩) := List.getElem?_eq_getElem hid
  have hset : ∀ o : JSObject, (h.objs.set id o)[id]? = some o := fun o =>
    List.getElem?_set_self hid
  refine ⟨rfl, ?_, ?_⟩
  · simp [dyntype_set_property, dyntype_get_property, dyntype_is_object,
      jsSetPropertyStr, jsGetPropertyStr, hobj, hset, getAssoc_setAssoc]
  · simp [dyntype_set_property, dyntype_has_property, dyntype_is_object,
      jsSetPropertyStr, jsHasProperty, hobj, hset, getAssoc_setAssoc]

/-- Witness for `dyntype_set_get_has_roundtrip`: a heap with one fresh object,
property `"k"`, value 5. -/
theorem dyntype_set_get_has_roundtrip_witness :
    (dyntype_set_property ⟨[⟨[], false⟩]⟩ (.vobj 0) "k" (.vnum 5)).2 = .dSuccess ∧
    dyntype_get_property (dyntype_set_property ⟨[⟨[], false⟩]⟩ (.vobj 0) "k"
      (.vnum 5)).1 (.vobj 0) "k" = some (.vnum 5) ∧
    dyntype_has_property (dyntype_set_property ⟨[⟨[], false⟩]⟩ (.vobj 0) "k"
      (.vnum 5)).1 (.vobj 0) "k" = .dTrue :=
  dyntype_set_get_has_roundtrip ⟨[⟨[], false⟩]⟩ 0 "k" (.vnum 5) (by decide)

/-! ## Host copy lemmas -/

/-- An in-bounds host copy preserves the destination's allocated length. -/
theorem hostCopy_length (dst src : List α) (d s n : Nat)
    (hd : d + n ≤ dst.length) (hs : s + n ≤ src.length) :
    (hostCopy dst d src s n).length = dst.length := by
  simp only [hostCopy, List.length_append, List.length_take, List.length_drop]
  omega

/-- Pointwise description of an in-bounds host copy. -/
theorem hostCopy_getElem? (dst src : List α) (d s n : Nat)
    (hd : d + n ≤ dst.length) (hs : s + n ≤ src.length) (k : Nat) :
    (hostCopy dst d src s n)[k]? =
      if k < d then dst[k]?
      else if k < d + n then src[s + (k - d)]?
      else dst[k]? := by
  have h1 : (List.take d dst).length = d := by rw [List.length_take]; omega
  have h2 : ((List.drop s src).take n).length = n := by
    rw [List.length_take, List.length_drop]; omega
  unfold hostCopy
  rcases Nat.lt_or_ge k d with hk1 | hk1
  · rw [List.getElem?_append, h1, if_pos hk1, List.getElem?_take, if_pos hk1, if_pos hk1]
  · rcases Nat.lt_or_ge k (d + n) with hk2 | hk2
    · rw [List.getElem?_append, h1, if_neg (by omega), List.getElem?_append, h2,
        if_pos (by omega), List.getElem?_take, if_pos (by omega), List.getElem?_drop,
        if_neg (by omega), if_pos hk2]
    · rw [List.getElem?_append, h1, if_neg (by omega), List.getElem?_append, h2,
        if_neg (by omega), List.getElem?_drop, if_neg (by omega), if_neg (by omega)]
      all_goals congr 1
      all_goals omega

/-! ## Correctness of the four mutations (shared by the splice and
capacity-invariant claims) -/

/-- `array_push_generic` is correct: on well-formed inputs (and absent
`uint32` wrap) it preserves the invariant, its live content becomes
`receiver ++ argument`, and it returns the new length. -/
theorem array_push_correct (dflt : α) (a v : ArrayStruct α) (ha : a.wf) (hv : v.wf)
    (hover : a.length + v.length + ARRAY_GROW_REDUNDANCE < 4294967296) :
    (array_push_generic dflt a v).1.wf ∧
    (array_push_generic dflt a v).1.length = a.length + v.length ∧
    (array_push_generic dflt a v).1.live = a.live ++ v.live ∧
    (array_push_generic dflt a v).2 = a.length + v.length := by
  unfold ArrayStruct.wf at ha hv
  have hu1 : u32 (a.length + v.length) = a.length + v.length :=
    Nat.mod_eq_of_lt (by unfold ARRAY_GROW_REDUNDANCE at hover; omega)
  have hu2 : u32 (a.length + v.length + ARRAY_GROW_REDUNDANCE)
      = a.length + v.length + ARRAY_GROW_REDUNDANCE := Nat.mod_eq_of_lt (by omega)
  simp only [array_push_generic, ArrayStruct.capacity]
  rw [hu1, hu2]
  by_cases hcap : a.storage.length ≤ a.length + v.length
  · rw [if_pos hcap]
    have hl0 : (List.replicate (a.length + v.length + ARRAY_GROW_REDUNDANCE) dflt).length
        = a.length + v.length + ARRAY_GROW_REDUNDANCE := List.length_replicate _ _
    have hl1 : (hostCopy (List.replicate (a.length + v.length + ARRAY_GROW_REDUNDANCE) dflt)
        0 a.storage 0 a.length).length = a.length + v.length + ARRAY_GROW_REDUNDANCE := by
      rw [hostCopy_length] <;> omega
    have hl2 : (hostCopy (hostCopy
        (List.replicate (a.length + v.length + ARRAY_GROW_REDUNDANCE) dflt)
        0 a.storage 0 a.length) a.length v.storage 0 v.length).length
        = a.length + v.length + ARRAY_GROW_REDUNDANCE := by
      rw [hostCopy_length] <;> omega
    refine ⟨by simp only [ArrayStruct.wf]; omega, rfl, ?_, rfl⟩
    simp only [ArrayStruct.live]
    apply List.ext_getElem?
    intro k
    rw [List.getElem?_take, List.getElem?_append]
    have hlivea : (a.storage.take a.length).length = a.length := by
      rw [List.length_take]; omega
    rw [hlivea]
    rcases Nat.lt_or_ge k (a.length + v.length) with hk | hk
    · rw [if_pos hk,
        hostCopy_getElem? _ _ _ _ _ (by omega) (by omega) _,
        hostCopy_getElem? _ _ _ _ _ (by omega) (by omega) _]
      rcases Nat.lt_or_ge k a.length with hk1 | hk1
      · rw [if_pos hk1, if_neg (by omega), if_pos (by omega), if_pos hk1,
          List.getElem?_take, if_pos hk1]
        all_goals congr 1
        all_goals omega
      · rw [if_neg (by omega), if_pos (by omega), if_neg (by omega),
          List.getElem?_take, if_pos (by omega)]
        all_goals congr 1
        all_goals omega
    · rw [if_neg (by omega), if_neg (by omega), List.getElem?_take,
        if_neg (by omega)]
  · rw [if_neg hcap]
    have hcap2 : a.length + v.length < a.storage.length := by omega
    have hl2 : (hostCopy a.storage a.length v.storage 0 v.length).length
        = a.storage.length := by rw [hostCopy_length] <;> omega
    refine ⟨by simp only [ArrayStruct.wf]; omega, rfl, ?_, rfl⟩
    simp only [ArrayStruct.live]
    apply List.ext_getElem?
    intro k
    rw [List.getElem?_take, List.getElem?_append]
    have hlivea : (a.storage.take a.length).length = a.length := by
      rw [List.length_take]; omega
    rw [hlivea]
    rcases Nat.lt_or_ge k (a.length + v.length) with hk | hk
    · rw [if_pos hk, hostCopy_getElem? _ _ _ _ _ (by omega) (by omega) _]
      rcases Nat.lt_or_ge k a.length with hk1 | hk1
      · rw [if_pos hk1, if_pos hk1, List.getElem?_take, if_pos hk1]
      · rw [if_neg (by omega), if_pos (by omega), if_neg (by omega),
          List.getElem?_take, if_pos (by omega)]
        all_goals congr 1
        all_goals omega
    · rw [if_neg (by omega), if_neg (by omega), List.getElem?_take,
        if_neg (by omega)]

/-- The live content has exactly `length` elements on a well-formed array. -/
theorem live_length (a : ArrayStruct α) (ha : a.wf) : a.live.length = a.length := by
  unfold ArrayStruct.wf at ha
  simp only [ArrayStruct.live, List.length_take]
  omega

/-- `array_pop` is correct: the invariant is preserved and the live content
loses its last element (an empty receiver is left untouched with the
empty-array error raised). -/
theorem array_pop_correct (a : ArrayStruct α) (ha : a.wf) :
    (array_pop a).1.wf ∧ (array_pop a).1.live = a.live.dropLast ∧
    (a.length = 0 → (array_pop a).1 = a ∧ (array_pop a).2.2 = ["array is empty"]) := by
  unfold ArrayStruct.wf at ha
  by_cases h0 : a.length = 0
  · refine ⟨?_, ?_, fun _ => by simp [array_pop, h0]⟩
    · simp only [array_pop, if_pos h0]
      exact ha
    · simp only [array_pop, if_pos h0]
      show a.live = a.live.dropLast
      simp only [ArrayStruct.live, h0, List.take_zero, List.dropLast_nil]
  · refine ⟨?_, ?_, fun h => absurd h h0⟩
    · simp only [array_pop, if_neg h0]
      show a.length - 1 ≤ a.storage.length
      omega
    · simp only [array_pop, if_neg h0]
      show a.storage.take (a.length - 1) = a.live.dropLast
      simp only [ArrayStruct.live]
      rw [List.dropLast_eq_take, List.length_take, List.take_take]
      congr 1
      omega

/-- `array_unshift_generic` is correct: on well-formed inputs (and absent
`uint32` wrap) it preserves the invariant, its live content becomes
`argument ++ receiver`, and it returns the new length. -/
theorem array_unshift_correct (dflt : α) (a v : ArrayStruct α) (ha : a.wf) (hv : v.wf)
    (hover : a.length + v.length + ARRAY_GROW_REDUNDANCE < 4294967296) :
    (array_unshift_generic dflt a v).1.wf ∧
    (array_unshift_generic dflt a v).1.length = a.length + v.length ∧
    (array_unshift_generic dflt a v).1.live = v.live ++ a.live ∧
    (array_unshift_generic dflt a v).2 = a.length + v.length := by
  unfold ArrayStruct.wf at ha hv
  have hu1 : u32 (a.length + v.length) = a.length + v.length :=
    Nat.mod_eq_of_lt (by unfold ARRAY_GROW_REDUNDANCE at hover; omega)
  have hu2 : u32 (a.length + v.length + ARRAY_GROW_REDUNDANCE)
      = a.length + v.length + ARRAY_GROW_REDUNDANCE := Nat.mod_eq_of_lt (by omega)
  simp only [array_unshift_generic, ArrayStruct.capacity]
  rw [hu1, hu2]
  by_cases hc1 : a.length = 0 ∧ v.length ≠ 0
  · rw [if_pos hc1]
    refine ⟨hv, ?_, ?_, ?_⟩
    · show v.length = a.length + v.length
      omega
    · show (⟨v.storage, v.length⟩ : ArrayStruct α).live = v.live ++ a.live
      simp only [ArrayStruct.live, hc1.1, List.take_zero, List.append_nil]
    · show v.length = a.length + v.length
      omega
  · rw [if_neg hc1]
    by_cases hc2 : a.length ≠ 0 ∧ v.length = 0
    · rw [if_pos hc2]
      refine ⟨ha, ?_, ?_, ?_⟩
      · show a.length = a.length + v.length
        omega
      · show (⟨a.storage, a.length⟩ : ArrayStruct α).live = v.live ++ a.live
        simp only [ArrayStruct.live, hc2.2, List.take_zero, List.nil_append]
      · show a.length = a.length + v.length
        omega
    · rw [if_neg hc2]
      by_cases hcap : a.storage.length ≤ a.length + v.length
      · rw [if_pos hcap]
        have hl0 : (List.replicate (a.length + v.length + ARRAY_GROW_REDUNDANCE)
            dflt).length = a.length + v.length + ARRAY_GROW_REDUNDANCE :=
          List.length_replicate _ _
        have hl1 : (hostCopy (List.replicate (a.length + v.length + ARRAY_GROW_REDUNDANCE)
            dflt) 0 v.storage 0 v.length).length
            = a.length + v.length + ARRAY_GROW_REDUNDANCE := by
          rw [hostCopy_length] <;> omega
        have hl2 : (hostCopy (hostCopy (List.replicate
            (a.length + v.length + ARRAY_GROW_REDUNDANCE) dflt) 0 v.storage 0 v.length)
            v.length a.storage 0 a.length).length
            = a.length + v.length + ARRAY_GROW_REDUNDANCE := by
          rw [hostCopy_length] <;> omega
        have e1 := hostCopy_getElem?
          (List.replicate (a.length + v.length + ARRAY_GROW_REDUNDANCE) dflt)
          v.storage 0 0 v.length (by omega) (by omega)
        have e2 := hostCopy_getElem?
          (hostCopy (List.replicate (a.length + v.length + ARRAY_GROW_REDUNDANCE) dflt)
            0 v.storage 0 v.length)
          a.storage v.length 0 a.length (by omega) (by omega)
        refine ⟨by simp only [ArrayStruct.wf]; omega, rfl, ?_, rfl⟩
        simp only [ArrayStruct.live]
        apply List.ext_getElem?
        intro k
        simp only [List.getElem?_take, List.getElem?_append, e2, e1,
          List.getElem?_replicate, List.length_take]
        split_ifs <;> first | rfl | (congr 1 <;> omega)
      · rw [if_neg hcap]
        have hl1 : (hostCopy a.storage v.length a.storage 0 a.length).length
            = a.storage.length := by rw [hostCopy_length] <;> omega
        have hl2 : (hostCopy (hostCopy a.storage v.length a.storage 0 a.length)
            0 v.storage 0 v.length).length = a.storage.length := by
          rw [hostCopy_length] <;> omega
        have e1 := hostCopy_getElem? a.storage a.storage v.length 0 a.length
          (by omega) (by omega)
        have e2 := hostCopy_getElem? (hostCopy a.storage v.length a.storage 0 a.length)
          v.storage 0 0 v.length (by omega) (by omega)
        refine ⟨by simp only [ArrayStruct.wf]; omega, rfl, ?_, rfl⟩
        simp only [ArrayStruct.live]
        apply List.ext_getElem?
        intro k
        simp only [List.getElem?_take, List.getElem?_append, e2, e1, List.length_take]
        split_ifs <;> first | rfl | (congr 1 <;> omega)

/-- Bounds of the normalized splice start index. -/
theorem spliceNormStart_bounds (start : Int) (len : Nat) :
    0 ≤ spliceNormStart start len ∧ spliceNormStart start len ≤ len := by
  unfold spliceNormStart
  split_ifs <;> omega

/-- Bounds of the normalized splice delete count. -/
theorem spliceNormDc_bounds (dcArg : DynArg) (start_idx : Int) (len : Nat)
    (h0 : 0 ≤ start_idx) (h1 : start_idx ≤ len) :
    0 ≤ spliceNormDc dcArg start_idx len ∧
    start_idx + spliceNormDc dcArg start_idx len ≤ len := by
  cases dcArg <;> simp only [spliceNormDc] <;> split_ifs <;> omega

/-- The removed-elements buffer of splice: a copy of `d` elements of `L` from
index `s` into a fresh `d`-sized array is exactly the slice. -/
theorem hostCopy_replicate_self (x : α) (L : List α) (s d : Nat) :
    hostCopy (List.replicate d x) 0 L s d = (L.drop s).take d := by
  simp [hostCopy]

/-- Content of the in-place splice rewrite (tail move then value write). -/
theorem splice_inplace_content (L V : List α) (len s d vl : Nat)
    (hlen : len ≤ L.length) (hsd : s + d ≤ len) (hvl : vl ≤ V.length)
    (hcap : len - d + vl ≤ L.length) :
    (hostCopy (hostCopy L (s + vl) L (s + d) (len - d - s)) s V 0 vl).take
        (len + vl - d)
      = L.take s ++ (V.take vl ++ ((L.drop (s + d)).take (len - d - s))) := by
  have h1 : (hostCopy L (s + vl) L (s + d) (len - d - s)).length = L.length := by
    rw [hostCopy_length] <;> omega
  have e1 := hostCopy_getElem? L L (s + vl) (s + d) (len - d - s) (by omega) (by omega)
  have e2 := hostCopy_getElem? (hostCopy L (s + vl) L (s + d) (len - d - s)) V s 0 vl
    (by omega) (by omega)
  apply List.ext_getElem?
  intro k
  simp only [List.getElem?_take, List.getElem?_append, List.getElem?_drop,
    e2, e1, List.length_take, List.length_drop]
  split_ifs <;> first | rfl | (congr 1 <;> omega) | (exfalso; omega)

/-- Content of the in-place splice rewrite when there are no replacement
elements (the value write is skipped). -/
theorem splice_inplace_content0 (L : List α) (len s d : Nat)
    (hlen : len ≤ L.length) (hsd : s + d ≤ len) :
    (hostCopy L (s + 0) L (s + d) (len - d - s)).take (len - d)
      = L.take s ++ ((L.drop (s + d)).take (len - d - s)) := by
  have e1 := hostCopy_getElem? L L (s + 0) (s + d) (len - d - s) (by omega) (by omega)
  apply List.ext_getElem?
  intro k
  simp only [List.getElem?_take, List.getElem?_append, List.getElem?_drop,
    e1, List.length_take, List.length_drop]
  split_ifs <;> first | rfl | (congr 1 <;> omega) | (exfalso; omega)

set_option maxHeartbeats 1000000 in
/-- Content of the reallocating splice rewrite (fresh storage, then prefix,
tail and value copies). -/
theorem splice_grow_content (x : α) (L V : List α) (len s d vl : Nat)
    (hlen : len ≤ L.length) (hsd : s + d ≤ len) (hvl : vl ≤ V.length) :
    (hostCopy (hostCopy (hostCopy
        (List.replicate (len + vl - d + ARRAY_GROW_REDUNDANCE) x) 0 L 0 s)
        (s + vl) L (s + d) (len - d - s)) s V 0 vl).take (len + vl - d)
      = L.take s ++ (V.take vl ++ ((L.drop (s + d)).take (len - d - s))) := by
  have h0 : (List.replicate (len + vl - d + ARRAY_GROW_REDUNDANCE) x).length
      = len + vl - d + ARRAY_GROW_REDUNDANCE := List.length_replicate _ _
  have h1 : (hostCopy (List.replicate (len + vl - d + ARRAY_GROW_REDUNDANCE) x)
      0 L 0 s).length = len + vl - d + ARRAY_GROW_REDUNDANCE := by
    rw [hostCopy_length] <;> omega
  have h2 : (hostCopy (hostCopy (List.replicate (len + vl - d + ARRAY_GROW_REDUNDANCE) x)
      0 L 0 s) (s + vl) L (s + d) (len - d - s)).length
      = len + vl - d + ARRAY_GROW_REDUNDANCE := by
    rw [hostCopy_length] <;> omega
  have e1 := hostCopy_getElem? (List.replicate (len + vl - d + ARRAY_GROW_REDUNDANCE) x)
    L 0 0 s (by omega) (by omega)
  have e2 := hostCopy_getElem? (hostCopy (List.replicate
    (len + vl - d + ARRAY_GROW_REDUNDANCE) x) 0 L 0 s) L (s + vl) (s + d)
    (len - d - s) (by omega) (by omega)
  have e3 := hostCopy_getElem? (hostCopy (hostCopy (List.replicate
    (len + vl - d + ARRAY_GROW_REDUNDANCE) x) 0 L 0 s) (s + vl) L (s + d)
    (len - d - s)) V s 0 vl (by omega) (by omega)
  apply List.ext_getElem?
  intro k
  simp only [List.getElem?_take, List.getElem?_append, List.getElem?_drop,
    e3, e2, e1, List.getElem?_replicate, List.length_take, List.length_drop]
  split_ifs <;> first | rfl | (congr 1 <;> omega) | (exfalso; omega)

/-- Conversions between slices of the live content and slices of the raw
storage of a well-formed array. -/
theorem live_slices (a : ArrayStruct α) (ha : a.wf) (s d : Nat)
    (hsd : s + d ≤ a.length) :
    a.live.take s = a.storage.take s ∧
    a.live.drop (s + d) = (a.storage.drop (s + d)).take (a.length - d - s) ∧
    (a.live.drop s).take d = (a.storage.drop s).take d := by
  unfold ArrayStruct.wf at ha
  unfold ArrayStruct.live
  refine ⟨?_, ?_, ?_⟩
  · rw [List.take_take]
    congr 1
    omega
  · rw [List.drop_take]
    congr 1
    omega
  · rw [List.drop_take, List.take_take]
    congr 1
    omega

set_option maxHeartbeats 1000000 in
/-- `array_splice_generic` is correct: on well-formed inputs (and absent
`uint32` wrap), writing `s` and `d` for the normalized start index and delete
count, the receiver keeps the invariant, its live content becomes
`prefix ++ replacement ++ tail` and its length `len + value_len - d`, whether
or not the storage was reallocated; the returned array is well-formed and
holds exactly the `d` removed elements. -/
theorem array_splice_correct (dflt : α) (a : ArrayStruct α) (start : Int)
    (dcArg : DynArg) (value : Option (ArrayStruct α)) (ha : a.wf)
    (hv : ∀ w, value = some w → w.wf)
    (hover : a.length + optLen value + ARRAY_GROW_REDUNDANCE < 4294967296) :
    (array_splice_generic dflt a start dcArg value).1.wf ∧
    (array_splice_generic dflt a start dcArg value).1.length
      = a.length + optLen value
        - (spliceNormDc dcArg (spliceNormStart start a.length) a.length).toNat ∧
    (array_splice_generic dflt a start dcArg value).1.live
      = a.live.take (spliceNormStart start a.length).toNat
        ++ (optLive value
            ++ a.live.drop ((spliceNormStart start a.length).toNat
                + (spliceNormDc dcArg (spliceNormStart start a.length) a.length).toNat)) ∧
    (array_splice_generic dflt a start dcArg value).2.1.wf ∧
    (array_splice_generic dflt a start dcArg value).2.1.length
      = (spliceNormDc dcArg (spliceNormStart start a.length) a.length).toNat ∧
    (array_splice_generic dflt a start dcArg value).2.1.live
      = (a.live.drop (spliceNormStart start a.length).toNat).take
          (spliceNormDc dcArg (spliceNormStart start a.length) a.length).toNat := by
  have hawf := ha
  unfold ArrayStruct.wf at hawf
  obtain ⟨hs0, hs1⟩ := spliceNormStart_bounds start a.length
  obtain ⟨hd0, hd1⟩ :=
    spliceNormDc_bounds dcArg (spliceNormStart start a.length) a.length hs0 hs1
  simp only [array_splice_generic, ArrayStruct.capacity]
  set sInt := spliceNormStart start a.length with hsIeq
  set dInt := spliceNormDc dcArg sInt a.length with hdIeq
  set s := sInt.toNat with hseq
  set d := dInt.toNat with hdeq
  have hsn : s ≤ a.length := by omega
  have hsd : s + d ≤ a.length := by omega
  obtain ⟨hls, hld, hldt⟩ := live_slices a ha s d hsd
  have hdel : hostCopy (List.replicate d dflt) 0 a.storage s d
      = (a.storage.drop s).take d := hostCopy_replicate_self dflt a.storage s d
  have hdlen : ((a.storage.drop s).take d).length = d := by
    rw [List.length_take, List.length_drop]
    omega
  rcases value with _ | w
  · -- value = NULL/undefined: no replacement elements
    simp only [optLen, optLive, Nat.add_zero, List.nil_append] at hover ⊢
    have hu1 : u32 (a.length - d) = a.length - d := Nat.mod_eq_of_lt (by omega)
    rw [hu1, hdel, if_neg (by omega)]
    refine ⟨?_, by trivial, ?_, ?_, by trivial, ?_⟩
    · show a.length - d
        ≤ (hostCopy a.storage (s + 0) a.storage (s + d) (a.length - d - s)).length
      rw [hostCopy_length] <;> omega
    · show (hostCopy a.storage (s + 0) a.storage (s + d)
          (a.length - d - s)).take (a.length - d)
        = a.live.take s ++ a.live.drop (s + d)
      rw [splice_inplace_content0 a.storage a.length s d hawf hsd, hls, hld]
    · show d ≤ ((a.storage.drop s).take d).length
      omega
    · show ((a.storage.drop s).take d).take d = (a.live.drop s).take d
      rw [hldt, List.take_take, Nat.min_self]
  · -- value = some w
    have hw : w.length ≤ w.storage.length := hv w rfl
    simp only [optLen, optLive] at hover ⊢
    have hu1 : u32 (a.length + w.length - d) = a.length + w.length - d :=
      Nat.mod_eq_of_lt (by omega)
    have hu2 : u32 (a.length + w.length - d + ARRAY_GROW_REDUNDANCE)
        = a.length + w.length - d + ARRAY_GROW_REDUNDANCE :=
      Nat.mod_eq_of_lt (by unfold ARRAY_GROW_REDUNDANCE at hover ⊢; omega)
    rw [hu1, hu2, hdel]
    by_cases hcap : a.storage.length < a.length - d + w.length
    · rw [if_pos hcap, if_pos (show 0 < w.length by omega)]
      refine ⟨?_, by trivial, ?_, ?_, by trivial, ?_⟩
      · show a.length + w.length - d ≤ (hostCopy (hostCopy (hostCopy
            (List.replicate (a.length + w.length - d + ARRAY_GROW_REDUNDANCE) dflt)
            0 a.storage 0 s) (s + w.length) a.storage (s + d) (a.length - d - s))
            s w.storage 0 w.length).length
        have hN0 := List.length_replicate
          (a.length + w.length - d + ARRAY_GROW_REDUNDANCE) dflt
        have hN1 : (hostCopy (List.replicate (a.length + w.length - d
            + ARRAY_GROW_REDUNDANCE) dflt) 0 a.storage 0 s).length
            = a.length + w.length - d + ARRAY_GROW_REDUNDANCE := by
          rw [hostCopy_length] <;> omega
        have hN2 : (hostCopy (hostCopy (List.replicate (a.length + w.length - d
            + ARRAY_GROW_REDUNDANCE) dflt) 0 a.storage 0 s) (s + w.length) a.storage
            (s + d) (a.length - d - s)).length
            = a.length + w.length - d + ARRAY_GROW_REDUNDANCE := by
          rw [hostCopy_length] <;> omega
        rw [hostCopy_length] <;> omega
      · show (hostCopy (hostCopy (hostCopy
            (List.replicate (a.length + w.length - d + ARRAY_GROW_REDUNDANCE) dflt)
            0 a.storage 0 s) (s + w.length) a.storage (s + d) (a.length - d - s))
            s w.storage 0 w.length).take (a.length + w.length - d)
          = a.live.take s ++ (w.live ++ a.live.drop (s + d))
        rw [splice_grow_content dflt a.storage w.storage a.length s d w.length
          hawf hsd hw, hls, hld]
        rfl
      · show d ≤ ((a.storage.drop s).take d).length
        omega
      · show ((a.storage.drop s).take d).take d = (a.live.drop s).take d
        rw [hldt, List.take_take, Nat.min_self]
    · rw [if_neg hcap]
      by_cases hvl : 0 < w.length
      · rw [if_pos hvl]
        refine ⟨?_, by trivial, ?_, ?_, by trivial, ?_⟩
        · show a.length + w.length - d ≤ (hostCopy (hostCopy a.storage (s + w.length)
              a.storage (s + d) (a.length - d - s)) s w.storage 0 w.length).length
          have hA1 : (hostCopy a.storage (s + w.length) a.storage (s + d)
              (a.length - d - s)).length = a.storage.length := by
            rw [hostCopy_length] <;> omega
          rw [hostCopy_length] <;> omega
        · show (hostCopy (hostCopy a.storage (s + w.length) a.storage (s + d)
              (a.length - d - s)) s w.storage 0 w.length).take (a.length + w.length - d)
            = a.live.take s ++ (w.live ++ a.live.drop (s + d))
          rw [splice_inplace_content a.storage w.storage a.length s d w.length
            hawf hsd hw (by omega), hls, hld]
          rfl
        · show d ≤ ((a.storage.drop s).take d).length
          omega
        · show ((a.storage.drop s).take d).take d = (a.live.drop s).take d
          rw [hldt, List.take_take, Nat.min_self]
      · rw [if_neg hvl]
        have hw0 : w.length = 0 := by omega
        refine ⟨?_, by trivial, ?_, ?_, by trivial, ?_⟩
        · show a.length + w.length - d ≤ (hostCopy a.storage (s + w.length)
              a.storage (s + d) (a.length - d - s)).length
          rw [hostCopy_length] <;> omega
        · show (hostCopy a.storage (s + w.length) a.storage (s + d)
              (a.length - d - s)).take (a.length + w.length - d)
            = a.live.take s ++ (w.live ++ a.live.drop (s + d))
          rw [hw0, Nat.add_zero,
            splice_inplace_content0 a.storage a.length s d hawf hsd, hls, hld]
          have : w.live = [] := by
            unfold ArrayStruct.live
            rw [hw0, List.take_zero]
          rw [this, List.nil_append]
        · show d ≤ ((a.storage.drop s).take d).length
          omega
        · show ((a.storage.drop s).take d).take d = (a.live.drop s).take d
          rw [hldt, List.take_take, Nat.min_self]

/-- C2: `array_splice_generic` removes the normalized delete count `d` of
elements at the normalized start `s`, inserts the replacement elements there,
updates the receiver's length to `len + value_len - d`, and returns a new
array holding exactly the removed elements, leaving the receiver correctly
reindexed whether or not the storage was reallocated (the conclusion is the
same in both branches of the capacity test); in particular, on receiver
`[1,2,3]`, `splice(1, 1, [9,9])` leaves the receiver `[1,9,9,3]` (length 4)
and returns `[2]`. -/
theorem array_splice_generic_spec :
    (∀ (α : Type) (dflt : α) (a v : ArrayStruct α) (start dc : Int),
      a.wf → v.wf →
      a.length + v.length + ARRAY_GROW_REDUNDANCE < 4294967296 →
      (array_splice_generic dflt a start (.num dc) (some v)).1.wf ∧
      (array_splice_generic dflt a start (.num dc) (some v)).1.length
        = a.length + v.length
          - (spliceNormDc (.num dc) (spliceNormStart start a.length) a.length).toNat ∧
      (array_splice_generic dflt a start (.num dc) (some v)).1.live
        = a.live.take (spliceNormStart start a.length).toNat
          ++ (v.live
              ++ a.live.drop ((spliceNormStart start a.length).toNat
                  + (spliceNormDc (.num dc) (spliceNormStart start a.length)
                      a.length).toNat)) ∧
      (array_splice_generic dflt a start (.num dc) (some v)).2.1.length
        = (spliceNormDc (.num dc) (spliceNormStart start a.length) a.length).toNat ∧
      (array_splice_generic dflt a start (.num dc) (some v)).2.1.live
        = (a.live.drop (spliceNormStart start a.length).toNat).take
            (spliceNormDc (.num dc) (spliceNormStart start a.length) a.length).toNat) ∧
    ((array_splice_generic (0 : Int) ⟨[1, 2, 3], 3⟩ 1 (.num 1)
        (some ⟨[9, 9], 2⟩)).1.live = [1, 9, 9, 3] ∧
     (array_splice_generic (0 : Int) ⟨[1, 2, 3], 3⟩ 1 (.num 1)
        (some ⟨[9, 9], 2⟩)).1.length = 4 ∧
     (array_splice_generic (0 : Int) ⟨[1, 2, 3], 3⟩ 1 (.num 1)
        (some ⟨[9, 9], 2⟩)).2.1.live = [2]) := by
  constructor
  · intro α dflt a v start dc ha hv hover
    have h := array_splice_correct dflt a start (.num dc) (some v) ha
      (fun w hw => by cases hw; exact hv) hover
    refine ⟨h.1, h.2.1, ?_, h.2.2.2.2.1, h.2.2.2.2.2⟩
    have h3 := h.2.2.1
    simpa only [optLive] using h3
  · exact ⟨by decide, by decide, by decide⟩

/-- Witness for `array_splice_generic_spec`: the general contract applied to
the scenario receiver `[1,2,3]` with `splice(1, 1, [9,9])`. -/
theorem array_splice_generic_spec_witness :
    (array_splice_generic (0 : Int) (⟨[1, 2, 3], 3⟩ : ArrayStruct Int) 1 (.num 1)
        (some ⟨[9, 9], 2⟩)).1.wf ∧
    (array_splice_generic (0 : Int) (⟨[1, 2, 3], 3⟩ : ArrayStruct Int) 1 (.num 1)
        (some ⟨[9, 9], 2⟩)).1.length
      = 3 + 2 - (spliceNormDc (.num 1) (spliceNormStart 1 3) 3).toNat ∧
    (array_splice_generic (0 : Int) (⟨[1, 2, 3], 3⟩ : ArrayStruct Int) 1 (.num 1)
        (some ⟨[9, 9], 2⟩)).1.live
      = (⟨[1, 2, 3], 3⟩ : ArrayStruct Int).live.take (spliceNormStart 1 3).toNat
        ++ ((⟨[9, 9], 2⟩ : ArrayStruct Int).live
            ++ (⟨[1, 2, 3], 3⟩ : ArrayStruct Int).live.drop
                ((spliceNormStart 1 3).toNat
                  + (spliceNormDc (.num 1) (spliceNormStart 1 3) 3).toNat)) ∧
    (array_splice_generic (0 : Int) (⟨[1, 2, 3], 3⟩ : ArrayStruct Int) 1 (.num 1)
        (some ⟨[9, 9], 2⟩)).2.1.length
      = (spliceNormDc (.num 1) (spliceNormStart 1 3) 3).toNat ∧
    (array_splice_generic (0 : Int) (⟨[1, 2, 3], 3⟩ : ArrayStruct Int) 1 (.num 1)
        (some ⟨[9, 9], 2⟩)).2.1.live
      = ((⟨[1, 2, 3], 3⟩ : ArrayStruct Int).live.drop (spliceNormStart 1 3).toNat).take
          (spliceNormDc (.num 1) (spliceNormStart 1 3) 3).toNat :=
  array_splice_generic_spec.1 Int 0 ⟨[1, 2, 3], 3⟩ ⟨[9, 9], 2⟩ 1 1
    (by decide) (by decide) (by decide)

/-- C4: starting from a well-formed array, after any finite sequence of push,
pop, splice and unshift operations (whose `uint32` length arithmetic does not
wrap, `seqOk`), the invariant `length ≤ capacity(storage)` still holds, and
the storage slots `[0, length)` hold exactly the live elements in their
correct order — namely the abstract list `absApplyOps` of the spec-side
semantics of the four mutations. -/
theorem capacity_invariant_sequence (α : Type) (dflt : α) (ops : List (ArrayOp α)) :
    ∀ a : ArrayStruct α, a.wf → seqOk dflt a ops →
      (applyOps dflt a ops).wf ∧
      (applyOps dflt a ops).live = absApplyOps a.live ops := by
  induction ops with
  | nil => exact fun a ha _ => ⟨ha, rfl⟩
  | cons op rest ih =>
    intro a ha hseq
    obtain ⟨hstep, hrest⟩ := hseq
    have h2 : (applyOp dflt a op).wf ∧ (applyOp dflt a op).live = absApplyOp a.live op := by
      cases op with
      | push v =>
        have hov : a.length + v.length + ARRAY_GROW_REDUNDANCE < 4294967296 := hstep
        have h := array_push_correct dflt a ⟨v, v.length⟩ ha (le_refl _) hov
        refine ⟨h.1, ?_⟩
        show (array_push_generic dflt a ⟨v, v.length⟩).1.live = a.live ++ v
        rw [h.2.2.1]
        congr 1
        show v.take v.length = v
        exact List.take_length v
      | pop =>
        have h := array_pop_correct a ha
        exact ⟨h.1, h.2.1⟩
      | splice start dcArg v =>
        have hov : a.length + optLen (v.map fun l => (⟨l, l.length⟩ : ArrayStruct α))
            + ARRAY_GROW_REDUNDANCE < 4294967296 := by
          cases v with
          | none => exact hstep
          | some w => exact hstep
        have hvw : ∀ w, v.map (fun l => (⟨l, l.length⟩ : ArrayStruct α)) = some w
            → w.wf := by
          intro w hw
          cases v with
          | none => cases hw
          | some l =>
            simp only [Option.map_some] at hw
            cases hw
            exact le_refl _
        have h := array_splice_correct dflt a start dcArg
          (v.map fun l => (⟨l, l.length⟩ : ArrayStruct α)) ha hvw hov
        refine ⟨h.1, ?_⟩
        show (array_splice_generic dflt a start dcArg
            (v.map fun l => (⟨l, l.length⟩ : ArrayStruct α))).1.live = _
        rw [h.2.2.1]
        simp only [absApplyOp, live_length a ha]
        congr 1
        cases v with
        | none => simp [optLive]
        | some l =>
          simp only [Option.map_some, optLive]
          congr 1
          show l.take l.length = l
          exact List.take_length l
      | unshift v =>
        have hov : a.length + v.length + ARRAY_GROW_REDUNDANCE < 4294967296 := hstep
        have h := array_unshift_correct dflt a ⟨v, v.length⟩ ha (le_refl _) hov
        refine ⟨h.1, ?_⟩
        show (array_unshift_generic dflt a ⟨v, v.length⟩).1.live = v ++ a.live
        rw [h.2.2.1]
        congr 1
        show v.take v.length = v
        exact List.take_length v
    have h3 := ih (applyOp dflt a op) h2.1 hrest
    refine ⟨h3.1, ?_⟩
    show (applyOps dflt (applyOp dflt a op) rest).live
      = absApplyOps (absApplyOp a.live op) rest
    rw [h3.2, h2.2]

/-- Witness for `capacity_invariant_sequence`: the empty array under the
sequence push `[1,2,3]`; splice(1, 1, `[9,9]`); pop; unshift `[7]`. -/
theorem capacity_invariant_sequence_witness :
    (applyOps (0 : Int) ⟨[], 0⟩
        [.push [1, 2, 3], .splice 1 (.num 1) (some [9, 9]), .pop, .unshift [7]]).wf ∧
    (applyOps (0 : Int) ⟨[], 0⟩
        [.push [1, 2, 3], .splice 1 (.num 1) (some [9, 9]), .pop, .unshift [7]]).live
      = absApplyOps ((⟨[], 0⟩ : ArrayStruct Int).live)
          [.push [1, 2, 3], .splice 1 (.num 1) (some [9, 9]), .pop, .unshift [7]] :=
  capacity_invariant_sequence Int 0
    [.push [1, 2, 3], .splice 1 (.num 1) (some [9, 9]), .pop, .unshift [7]]
    ⟨[], 0⟩ (by decide) (by decide)

/-! ## Quicksort correctness -/

/-- An in-bounds non-negative index read succeeds. -/
theorem getI_pos {α : Type} (a : List α) (i : Int) (h0 : 0 ≤ i)
    (h1 : i.toNat < a.length) : getI a i = some a[i.toNat] := by
  unfold getI
  rw [if_neg (by omega), List.get?_eq_getElem?]
  exact List.getElem?_eq_getElem h1

/-- Equal optional reads at in-bounds indices give equal elements. -/
theorem getElem_eq_of_getElem?_eq {α : Type} {l1 l2 : List α} {m k : Nat}
    (h : l1[m]? = l2[k]?) (h1 : m < l1.length) (h2 : k < l2.length) :
    l1[m] = l2[k] := by
  rw [List.getElem?_eq_getElem h1, List.getElem?_eq_getElem h2] at h
  exact Option.some.inj h

/-- Pulling the old value of a slot in front of the updated list is a
permutation of pushing the new value in front of the old list. -/
theorem get_cons_set_perm {α : Type} (t : List α) :
    ∀ (s : Nat) (hs : s < t.length) (x : α), (t[s] :: t.set s x).Perm (x :: t) := by
  induction t with
  | nil => intro s hs x; exact absurd hs (by simp)
  | cons y u ih =>
    intro s hs x
    cases s with
    | zero =>
      simp only [List.getElem_cons_zero, List.set_cons_zero]
      exact List.Perm.swap x y u
    | succ s' =>
      have hs' : s' < u.length := by simpa using hs
      simp only [List.getElem_cons_succ, List.set_cons_succ]
      exact (List.Perm.swap y u[s'] (u.set s' x)).trans
        ((List.Perm.cons y (ih s' hs' x)).trans (List.Perm.swap x y u))

/-- Swapping two slots of a list is a permutation. -/
theorem swap_elems_perm {α : Type} (a : List α) :
    ∀ (m k : Nat) (hm : m < a.length) (hk : k < a.length),
      ((a.set m a[k]).set k a[m]).Perm a := by
  induction a with
  | nil => intro m k hm _; exact absurd hm (by simp)
  | cons x t ih =>
    intro m k hm hk
    cases m with
    | zero =>
      cases k with
      | zero =>
        simp only [List.getElem_cons_zero, List.set_cons_zero]
        exact List.Perm.refl _
      | succ k' =>
        have hk' : k' < t.length := by simpa using hk
        simp only [List.getElem_cons_zero, List.getElem_cons_succ,
          List.set_cons_zero, List.set_cons_succ]
        exact get_cons_set_perm t k' hk' x
    | succ m' =>
      cases k with
      | zero =>
        have hm' : m' < t.length := by simpa using hm
        simp only [List.getElem_cons_zero, List.getElem_cons_succ,
          List.set_cons_succ, List.set_cons_zero]
        exact get_cons_set_perm t m' hm' x
      | succ k' =>
        have hm' : m' < t.length := by simpa using hm
        have hk' : k' < t.length := by simpa using hk
        simp only [List.getElem_cons_succ, List.set_cons_succ]
        exact List.Perm.cons x (ih m' k' hm' hk')

/-- `swapI` at in-bounds indices is the double `set`. -/
theorem swapI_eq {α : Type} (a : List α) (i j : Int) (hi : 0 ≤ i)
    (hilen : i.toNat < a.length) (hj : 0 ≤ j) (hjlen : j.toNat < a.length) :
    swapI a i j = (a.set i.toNat a[j.toNat]).set j.toNat a[i.toNat] := by
  unfold swapI
  rw [getI_pos a i hi hilen, getI_pos a j hj hjlen]

/-- `swapI` at in-bounds indices is a permutation. -/
theorem swapI_perm {α : Type} (a : List α) (i j : Int) (hi : 0 ≤ i)
    (hilen : i.toNat < a.length) (hj : 0 ≤ j) (hjlen : j.toNat < a.length) :
    (swapI a i j).Perm a := by
  rw [swapI_eq a i j hi hilen hj hjlen]
  exact swap_elems_perm a i.toNat j.toNat hilen hjlen

/-- Pointwise description of `swapI` at in-bounds indices. -/
theorem swapI_getElem? {α : Type} (a : List α) (i j : Int) (hi : 0 ≤ i)
    (hilen : i.toNat < a.length) (hj : 0 ≤ j) (hjlen : j.toNat < a.length)
    (m : Nat) :
    (swapI a i j)[m]? =
      if m = j.toNat then a[i.toNat]? else if m = i.toNat then a[j.toNat]?
      else a[m]? := by
  rw [swapI_eq a i j hi hilen hj hjlen]
  by_cases h1 : m = j.toNat
  · subst h1
    rw [if_pos rfl, List.getElem?_set_self (by rw [List.length_set]; exact hjlen)]
    exact (List.getElem?_eq_getElem hilen).symm
  · rw [if_neg h1, List.getElem?_set_ne (Ne.symm h1)]
    by_cases h2 : m = i.toNat
    · subst h2
      rw [if_pos rfl, List.getElem?_set_self hilen]
      exact (List.getElem?_eq_getElem hjlen).symm
    · rw [if_neg h2, List.getElem?_set_ne (Ne.symm h2)]

/-- The ascending scan, started strictly below an in-bounds stopper slot
holding an element not below the pivot, stops at the first slot past `i`
holding an element not below the pivot; every slot strictly between is
strictly below the pivot. -/
theorem scanUp_spec {α : Type} [LinearOrder α] (c : α → α → Int)
    (hc : Consistent c) (p : α) (a : List α) (k : Nat) (hk : k < a.length)
    (hp : p ≤ a[k]) :
    ∀ (fuel : Nat) (i : Int), -1 ≤ i → i < (k : Int) →
      (k : Int) - i ≤ (fuel : Int) →
      ∃ (i1 : Nat) (h1 : i1 < a.length),
        scanUp c p a i fuel = some (i1 : Int) ∧ i < (i1 : Int) ∧ i1 ≤ k ∧
        p ≤ a[i1] ∧
        ∀ (m : Nat) (hm : m < a.length), i < (m : Int) → m < i1 → a[m] < p := by
  intro fuel
  induction fuel with
  | zero => intro i _ hik hf; exfalso; omega
  | succ f IH =>
    intro i h0 hik hf
    have hlt : (i + 1).toNat < a.length := by omega
    have hget : getI a (i + 1) = some a[(i + 1).toNat] :=
      getI_pos a (i + 1) (by omega) hlt
    have hstep : scanUp c p a i (f + 1) =
        if 0 < c p a[(i + 1).toNat] then scanUp c p a (i + 1) f
        else some (i + 1) := by
      simp only [scanUp]
      rw [hget]
    by_cases hcmp : 0 < c p a[(i + 1).toNat]
    · rw [if_pos hcmp] at hstep
      have helem : a[(i + 1).toNat] < p := (hc p a[(i + 1).toNat]).1.mp hcmp
      have hik1 : i + 1 < (k : Int) := by
        rcases eq_or_lt_of_le (show i + 1 ≤ (k : Int) by omega) with heq | hlt2
        · exfalso
          have hek : (i + 1).toNat = k := by omega
          subst hek
          exact absurd hp (not_le.mpr helem)
        · exact hlt2
      obtain ⟨i1, hi1len, hres, hii1, hi1k, hpi1, hmid⟩ :=
        IH (i + 1) (by omega) hik1 (by omega)
      refine ⟨i1, hi1len, hstep ▸ hres, by omega, hi1k, hpi1, ?_⟩
      intro m hm hmi hmi1
      by_cases hm1 : m = (i + 1).toNat
      · subst hm1
        exact helem
      · exact hmid m hm (by omega) hmi1
    · rw [if_neg hcmp] at hstep
      have hple : p ≤ a[(i + 1).toNat] :=
        not_lt.mp (fun hlt2 => hcmp ((hc p a[(i + 1).toNat]).1.mpr hlt2))
      refine ⟨(i + 1).toNat, hlt, ?_, by omega, by omega, hple, ?_⟩
      · rw [hstep]
        congr 1
        omega
      · intro m hm hmi hmi1
        exfalso
        omega

/-- The descending scan, started strictly above an in-bounds stopper slot
holding an element not above the pivot, stops at the first slot before `j`
holding an element not above the pivot; every slot strictly between is
strictly above the pivot. -/
theorem scanDown_spec {α : Type} [LinearOrder α] (c : α → α → Int)
    (hc : Consistent c) (p : α) (a : List α) (k : Nat) (hk : k < a.length)
    (hp : a[k] ≤ p) :
    ∀ (fuel : Nat) (j : Int), (k : Int) < j → j ≤ (a.length : Int) →
      j - (k : Int) ≤ (fuel : Int) →
      ∃ (j1 : Nat) (h1 : j1 < a.length),
        scanDown c p a j fuel = some (j1 : Int) ∧ k ≤ j1 ∧ (j1 : Int) < j ∧
        a[j1] ≤ p ∧
        ∀ (m : Nat) (hm : m < a.length), (j1 : Int) < m → (m : Int) < j →
          p < a[m] := by
  intro fuel
  induction fuel with
  | zero => intro j hkj _ hf; exfalso; omega
  | succ f IH =>
    intro j hkj hjlen hf
    have hlt : (j - 1).toNat < a.length := by omega
    have hget : getI a (j - 1) = some a[(j - 1).toNat] :=
      getI_pos a (j - 1) (by omega) hlt
    have hstep : scanDown c p a j (f + 1) =
        if c p a[(j - 1).toNat] < 0 then scanDown c p a (j - 1) f
        else some (j - 1) := by
      simp only [scanDown]
      rw [hget]
    by_cases hcmp : c p a[(j - 1).toNat] < 0
    · rw [if_pos hcmp] at hstep
      have helem : p < a[(j - 1).toNat] := (hc p a[(j - 1).toNat]).2.mp hcmp
      have hkj1 : (k : Int) < j - 1 := by
        rcases eq_or_lt_of_le (show (k : Int) ≤ j - 1 by omega) with heq | hlt2
        · exfalso
          have hek : (j - 1).toNat = k := by omega
          subst hek
          exact absurd hp (not_le.mpr helem)
        · exact hlt2
      obtain ⟨j1, hj1len, hres, hkj1', hj1j, hj1p, hmid⟩ :=
        IH (j - 1) hkj1 (by omega) (by omega)
      refine ⟨j1, hj1len, hstep ▸ hres, hkj1', by omega, hj1p, ?_⟩
      intro m hm hj1m hmj
      by_cases hm1 : m = (j - 1).toNat
      · subst hm1
        exact helem
      · exact hmid m hm hj1m (by omega)
    · rw [if_neg hcmp] at hstep
      have hple : a[(j - 1).toNat] ≤ p :=
        not_lt.mp (fun hlt2 => hcmp ((hc p a[(j - 1).toNat]).2.mpr hlt2))
      refine ⟨(j - 1).toNat, hlt, ?_, by omega, by omega, hple, ?_⟩
      · rw [hstep]
        congr 1
        omega
      · intro m hm hj1m hmj
        exfalso
        omega

set_option maxHeartbeats 1000000 in
/-- Partition loop invariant: started with `[l, i]` not above the pivot,
`[j, r]` not below it, an un-crossed stopper on each side and enough fuel,
the Hoare loop terminates with a permutation of the input that agrees with it
outside `[l, r]`, only rearranges `[l, r]` (provenance), and is split at the
returned `jf` with `[l, jf]` not above and `[jf + 1, r]` not below the
pivot, where `l ≤ jf < r`. -/
theorem hoareLoop_spec {α : Type} [LinearOrder α] (c : α → α → Int)
    (hc : Consistent c) (p : α) (l r : Int) (hl : 0 ≤ l) :
    ∀ (fuel : Nat) (a : List α) (i j : Int),
      r < (a.length : Int) →
      -1 ≤ i → l - 1 ≤ i → i < j → j ≤ r + 1 →
      (∀ (m : Nat) (hm : m < a.length), l ≤ (m : Int) → (m : Int) ≤ i → a[m] ≤ p) →
      (∀ (m : Nat) (hm : m < a.length), j ≤ (m : Int) → (m : Int) ≤ r → p ≤ a[m]) →
      (∃ (k : Nat) (hk : k < a.length),
        i < (k : Int) ∧ (k : Int) ≤ r ∧ (j = r + 1 → (k : Int) < r) ∧ p ≤ a[k]) →
      (∃ (k : Nat) (hk : k < a.length), l ≤ (k : Int) ∧ (k : Int) < j ∧ a[k] ≤ p) →
      j - i ≤ 2 * (fuel : Int) →
      ∃ (a2 : List α) (jf : Nat),
        hoareLoop c p a i j fuel = some (a2, (jf : Int)) ∧
        a2.length = a.length ∧ a2.Perm a ∧
        (∀ m : Nat, (m : Int) < l ∨ r < (m : Int) → a2[m]? = a[m]?) ∧
        (∀ m : Nat, l ≤ (m : Int) → (m : Int) ≤ r →
          ∃ k : Nat, l ≤ (k : Int) ∧ (k : Int) ≤ r ∧ a2[m]? = a[k]?) ∧
        l ≤ (jf : Int) ∧ (jf : Int) < r ∧
        (∀ (m : Nat) (hm : m < a2.length), l ≤ (m : Int) → m ≤ jf → a2[m] ≤ p) ∧
        (∀ (m : Nat) (hm : m < a2.length), jf < m → (m : Int) ≤ r → p ≤ a2[m]) := by
  intro fuel
  induction fuel with
  | zero =>
    intro a i j _ _ _ hij _ _ _ _ _ hfuel
    exfalso
    omega
  | succ f IH =>
    intro a i j hr h0i hli hij hjr hlow hhigh hup hdown hfuel
    obtain ⟨ku, hkulen, hiku, hkur, hkucond, hpku⟩ := hup
    obtain ⟨kd, hkdlen, hlkd, hkdj, hkdp⟩ := hdown
    obtain ⟨i1, hi1len, hscanUp, hii1, hi1ku, hpi1, hmidUp⟩ :=
      scanUp_spec c hc p a ku hkulen hpku (a.length + 2) i h0i hiku (by omega)
    obtain ⟨j1, hj1len, hscanDown, hkdj1, hj1j, hj1p, hmidDown⟩ :=
      scanDown_spec c hc p a kd hkdlen hkdp (a.length + 2) j hkdj (by omega)
        (by omega)
    have hstep : hoareLoop c p a i j (f + 1) =
        if (i1 : Int) < (j1 : Int) then
          hoareLoop c p (swapI a (i1 : Int) (j1 : Int)) (i1 : Int) (j1 : Int) f
        else some (a, (j1 : Int)) := by
      simp only [hoareLoop]
      rw [if_pos hij, hscanUp, hscanDown]
    by_cases hcross : (i1 : Int) < (j1 : Int)
    · rw [if_pos hcross] at hstep
      have hli1 : l ≤ (i1 : Int) := by omega
      have hj1r : (j1 : Int) ≤ r := by omega
      have hswlen : (swapI a (i1 : Int) (j1 : Int)).length = a.length := by
        rw [swapI_eq a (i1 : Int) (j1 : Int) (by omega) (by omega) (by omega)
          (by omega)]
        simp
      have hswperm : (swapI a (i1 : Int) (j1 : Int)).Perm a := by
        have h := swapI_perm a (i1 : Int) (j1 : Int) (by omega) (by omega)
          (by omega) (by omega)
        simpa [Int.toNat_natCast] using h
      have hget : ∀ m : Nat, (swapI a (i1 : Int) (j1 : Int))[m]? =
          if m = j1 then a[i1]? else if m = i1 then a[j1]? else a[m]? := by
        intro m
        have h := swapI_getElem? a (i1 : Int) (j1 : Int) (by omega) (by omega)
          (by omega) (by omega) m
        simpa [Int.toNat_natCast] using h
      have hgeti1 : (swapI a (i1 : Int) (j1 : Int))[i1]? = a[j1]? := by
        rw [hget i1, if_neg (by omega), if_pos rfl]
      have hgetj1 : (swapI a (i1 : Int) (j1 : Int))[j1]? = a[i1]? := by
        rw [hget j1, if_pos rfl]
      have hlow' : ∀ (m : Nat) (hm : m < (swapI a (i1 : Int) (j1 : Int)).length),
          l ≤ (m : Int) → (m : Int) ≤ (i1 : Int) →
          (swapI a (i1 : Int) (j1 : Int))[m] ≤ p := by
        intro m hm hlm hmi1
        have hmA : m < a.length := by omega
        by_cases hmj : m = j1
        · exfalso; omega
        by_cases hmi : m = i1
        · have he := hget m
          rw [if_neg hmj, if_pos hmi] at he
          rw [getElem_eq_of_getElem?_eq he hm hj1len]
          exact hj1p
        · have he := hget m
          rw [if_neg hmj, if_neg hmi] at he
          rw [getElem_eq_of_getElem?_eq he hm hmA]
          by_cases hmi' : (m : Int) ≤ i
          · exact hlow m hmA hlm hmi'
          · exact le_of_lt (hmidUp m hmA (by omega) (by omega))
      have hhigh' : ∀ (m : Nat) (hm : m < (swapI a (i1 : Int) (j1 : Int)).length),
          (j1 : Int) ≤ (m : Int) → (m : Int) ≤ r →
          p ≤ (swapI a (i1 : Int) (j1 : Int))[m] := by
        intro m hm hj1m hmr
        have hmA : m < a.length := by omega
        by_cases hmj : m = j1
        · have he := hget m
          rw [if_pos hmj] at he
          rw [getElem_eq_of_getElem?_eq he hm hi1len]
          exact hpi1
        · have he := hget m
          rw [if_neg hmj, if_neg (by omega : ¬m = i1)] at he
          rw [getElem_eq_of_getElem?_eq he hm hmA]
          by_cases hmj' : j ≤ (m : Int)
          · exact hhigh m hmA hmj' hmr
          · exact le_of_lt (hmidDown m hmA (by omega) (by omega))
      obtain ⟨a2, jf, hres, hlen2, hperm2, hout2, hprov2, hljf, hjfr, hlow2,
          hhigh2⟩ :=
        IH (swapI a (i1 : Int) (j1 : Int)) (i1 : Int) (j1 : Int) (by omega)
          (by omega) (by omega) hcross (by omega) hlow' hhigh'
          ⟨j1, by omega, by omega, by omega, by omega,
            by rw [getElem_eq_of_getElem?_eq hgetj1 (by omega) hi1len]
               exact hpi1⟩
          ⟨i1, by omega, by omega, by omega,
            by rw [getElem_eq_of_getElem?_eq hgeti1 (by omega) hj1len]
               exact hj1p⟩
          (by omega)
      refine ⟨a2, jf, by rw [hstep]; exact hres, by omega, hperm2.trans hswperm,
        ?_, ?_, hljf, hjfr, hlow2, hhigh2⟩
      · intro m hmo
        rw [hout2 m hmo, hget m, if_neg (by omega : ¬m = j1),
          if_neg (by omega : ¬m = i1)]
      · intro m hlm hmr
        obtain ⟨k, hlk, hkr, he⟩ := hprov2 m hlm hmr
        have hgk := hget k
        by_cases hkj : k = j1
        · rw [if_pos hkj] at hgk
          exact ⟨i1, by omega, by omega, by rw [he, hgk]⟩
        by_cases hki : k = i1
        · rw [if_neg hkj, if_pos hki] at hgk
          exact ⟨j1, by omega, by omega, by rw [he, hgk]⟩
        · rw [if_neg hkj, if_neg hki] at hgk
          exact ⟨k, hlk, hkr, by rw [he, hgk]⟩
    · rw [if_neg hcross] at hstep
      have hj1r : (j1 : Int) < r := by
        by_cases hjr1 : j = r + 1
        · have hkur' := hkucond hjr1
          omega
        · omega
      refine ⟨a, j1, hstep, rfl, List.Perm.refl a, fun m _ => rfl,
        fun m hlm hmr => ⟨m, hlm, hmr, rfl⟩, by omega, hj1r, ?_, ?_⟩
      · intro m hm hlm hmj1
        by_cases hmj : m = j1
        · subst hmj
          exact hj1p
        · by_cases hmi : (m : Int) ≤ i
          · exact hlow m hm hlm hmi
          · exact le_of_lt (hmidUp m hm (by omega) (by omega))
      · intro m hm hj1m hmr
        by_cases hmj : j ≤ (m : Int)
        · exact hhigh m hm hmj hmr
        · exact le_of_lt (hmidDown m hm (by omega) (by omega))

set_option maxHeartbeats 1000000 in
/-- `quick_sort` on `[l, r]` with enough fuel terminates with a permutation of
the input that agrees with it outside `[l, r]`, only rearranges `[l, r]`
(provenance), and is non-decreasing on `[l, r]`. -/
theorem quickSort_spec {α : Type} [LinearOrder α] (c : α → α → Int)
    (hc : Consistent c) :
    ∀ (fuel : Nat) (a : List α) (l r : Int), 0 ≤ l → r < (a.length : Int) →
      (r - l).toNat < fuel →
      ∃ a2, quickSort c a l r fuel = some a2 ∧
        a2.length = a.length ∧ a2.Perm a ∧
        (∀ m : Nat, (m : Int) < l ∨ r < (m : Int) → a2[m]? = a[m]?) ∧
        (∀ m : Nat, l ≤ (m : Int) → (m : Int) ≤ r →
          ∃ k : Nat, l ≤ (k : Int) ∧ (k : Int) ≤ r ∧ a2[m]? = a[k]?) ∧
        (∀ (m1 m2 : Nat) (h1 : m1 < a2.length) (h2 : m2 < a2.length),
          l ≤ (m1 : Int) → m1 ≤ m2 → (m2 : Int) ≤ r → a2[m1] ≤ a2[m2]) := by
  intro fuel
  induction fuel with
  | zero =>
    intro a l r _ _ hf
    exfalso
    omega
  | succ f IH =>
    intro a l r hl hr hf
    by_cases hrl : r ≤ l
    · have hstep : quickSort c a l r (f + 1) = some a := by
        simp only [quickSort]
        rw [if_pos hrl]
      refine ⟨a, hstep, rfl, List.Perm.refl a, fun m _ => rfl,
        fun m hlm hmr => ⟨m, hlm, hmr, rfl⟩, ?_⟩
      intro m1 m2 h1 h2 hlm1 hm12 hm2r
      have hmm : m1 = m2 := by omega
      subst hmm
      exact le_refl _
    · have hπl : l ≤ (l + r) / 2 := by omega
      have hπr : (l + r) / 2 < r := by omega
      have hπlen : ((l + r) / 2).toNat < a.length := by omega
      have hgetπ : getI a ((l + r) / 2) = some a[((l + r) / 2).toNat] :=
        getI_pos a _ (by omega) hπlen
      obtain ⟨a1, jf, hhoare, hlen1, hperm1, hout1, hprov1, hljf, hjfr, hlow1,
          hhigh1⟩ :=
        hoareLoop_spec c hc a[((l + r) / 2).toNat] l r hl (a.length + 2) a
          (l - 1) (r + 1) hr (by omega) (by omega) (by omega) (by omega)
          (fun m hm h1 h2 => by omega) (fun m hm h1 h2 => by omega)
          ⟨((l + r) / 2).toNat, hπlen, by omega, by omega, fun _ => by omega,
            le_refl _⟩
          ⟨((l + r) / 2).toNat, hπlen, by omega, by omega, le_refl _⟩
          (by omega)
      obtain ⟨a2, hq1, hlen2, hperm2, hout2, hprov2, hsort2⟩ :=
        IH a1 l (jf : Int) hl (by omega) (by omega)
      obtain ⟨a3, hq2, hlen3, hperm3, hout3, hprov3, hsort3⟩ :=
        IH a2 ((jf : Int) + 1) r (by omega) (by omega) (by omega)
      have hstep : quickSort c a l r (f + 1) =
          quickSort c a2 ((jf : Int) + 1) r f := by
        simp only [quickSort, hgetπ, hhoare, hq1]
        rw [if_neg hrl]
      refine ⟨a3, by rw [hstep]; exact hq2, by omega,
        hperm3.trans (hperm2.trans hperm1), ?_, ?_, ?_⟩
      · intro m hmo
        have h3 : a3[m]? = a2[m]? := hout3 m (by omega)
        have h2 : a2[m]? = a1[m]? := hout2 m (by omega)
        have h1 : a1[m]? = a[m]? := hout1 m (by omega)
        rw [h3, h2, h1]
      · intro m hlm hmr
        by_cases hmjf : (m : Int) ≤ (jf : Int)
        · have h3 : a3[m]? = a2[m]? := hout3 m (by omega)
          obtain ⟨k, hlk, hkjf, h2⟩ := hprov2 m hlm hmjf
          obtain ⟨k2, hlk2, hk2r, h1⟩ := hprov1 k hlk (by omega)
          exact ⟨k2, hlk2, hk2r, by rw [h3, h2, h1]⟩
        · obtain ⟨k, hjfk, hkr, h3⟩ := hprov3 m (by omega) hmr
          have h2 : a2[k]? = a1[k]? := hout2 k (by omega)
          obtain ⟨k2, hlk2, hk2r, h1⟩ := hprov1 k (by omega) hkr
          exact ⟨k2, hlk2, hk2r, by rw [h3, h2, h1]⟩
      · intro m1 m2 h1 h2 hlm1 hm12 hm2r
        by_cases hcs : (jf : Int) + 1 ≤ (m1 : Int)
        · exact hsort3 m1 m2 h1 h2 hcs hm12 hm2r
        · by_cases hcs2 : (m2 : Int) ≤ (jf : Int)
          · have e1 : a3[m1]? = a2[m1]? := hout3 m1 (by omega)
            have e2 : a3[m2]? = a2[m2]? := hout3 m2 (by omega)
            have hm1A : m1 < a2.length := by omega
            have hm2A : m2 < a2.length := by omega
            rw [getElem_eq_of_getElem?_eq e1 h1 hm1A,
              getElem_eq_of_getElem?_eq e2 h2 hm2A]
            exact hsort2 m1 m2 hm1A hm2A hlm1 hm12 hcs2
          · have e1 : a3[m1]? = a2[m1]? := hout3 m1 (by omega)
            have hm1A : m1 < a2.length := by omega
            obtain ⟨k, hlk, hkjf, hpk⟩ := hprov2 m1 hlm1 (by omega)
            have hkA : k < a1.length := by omega
            have hv1 : a3[m1] = a1[k] := by
              rw [getElem_eq_of_getElem?_eq e1 h1 hm1A]
              exact getElem_eq_of_getElem?_eq hpk hm1A hkA
            have hle1 : a3[m1] ≤ a[((l + r) / 2).toNat] := by
              rw [hv1]
              exact hlow1 k hkA hlk (by omega)
            obtain ⟨k2, hjfk2, hk2r, hp3⟩ := hprov3 m2 (by omega) hm2r
            have hk2A2 : k2 < a2.length := by omega
            have hk2A1 : k2 < a1.length := by omega
            have e2 : a2[k2]? = a1[k2]? := hout2 k2 (by omega)
            have hv2 : a3[m2] = a1[k2] := by
              rw [getElem_eq_of_getElem?_eq hp3 h2 hk2A2]
              exact getElem_eq_of_getElem?_eq e2 hk2A2 hk2A1
            have hle2 : a[((l + r) / 2).toNat] ≤ a3[m2] := by
              rw [hv2]
              exact hhigh1 k2 hk2A1 (by omega) hk2r
            exact hle1.trans hle2

/-- Lists that are permutations of each other and agree from slot `n` on have
permuted `n`-prefixes. -/
theorem take_perm_of_perm_of_drop_eq {α : Type} {l1 l2 : List α} (n : Nat)
    (hp : l1.Perm l2) (hd : l1.drop n = l2.drop n) :
    (l1.take n).Perm (l2.take n) := by
  have h1 : ((l1.take n ++ l1.drop n : List α) : Multiset α)
      = ((l2.take n ++ l2.drop n : List α) : Multiset α) := by
    rw [List.take_append_drop, List.take_append_drop]
    exact Multiset.coe_eq_coe.mpr hp
  rw [← Multiset.coe_add, ← Multiset.coe_add, hd] at h1
  exact Multiset.coe_eq_coe.mp (add_right_cancel h1)

/-- C1: for every well-formed array and every comparator closure consistent
with a total order on the elements, `array_sort_generic` (recursive
`quick_sort` with middle-index pivot value and Hoare partition, recursing on
`[l, j]` and `[j + 1, r]`) terminates — `length + 1` recursion-depth fuel
suffices — and returns the receiver itself with its length field intact and
its live region `[0, length)` holding a permutation of the original live
elements in non-decreasing order, the dead region `[length, capacity)`
untouched (stability is not claimed). -/
theorem array_sort_generic_sorts {α : Type} [LinearOrder α] (c : α → α → Int)
    (hc : Consistent c) (a : ArrayStruct α) (ha : a.wf) :
    ∃ out, array_sort_generic c a (a.length + 1) = some out ∧
      out.length = a.length ∧ out.wf ∧
      out.live.Perm a.live ∧
      out.live.Sorted (· ≤ ·) ∧
      out.storage.drop a.length = a.storage.drop a.length := by
  obtain ⟨s2, hq, hlen, hperm, hout, hprov, hsort⟩ :=
    quickSort_spec c hc (a.length + 1) a.storage 0 ((a.length : Int) - 1)
      (by omega) (by have := ha; unfold ArrayStruct.wf at this; omega)
      (by omega)
  have hdrop : s2.drop a.length = a.storage.drop a.length := by
    apply List.ext_getElem?
    intro k
    rw [List.getElem?_drop, List.getElem?_drop]
    exact hout (a.length + k) (by omega)
  refine ⟨{ a with storage := s2 }, ?_, rfl, ?_, ?_, ?_, hdrop⟩
  · unfold array_sort_generic
    rw [hq]
    rfl
  · show a.length ≤ s2.length
    have := ha
    unfold ArrayStruct.wf at this
    omega
  · show (s2.take a.length).Perm (a.storage.take a.length)
    exact take_perm_of_perm_of_drop_eq a.length hperm hdrop
  · show (s2.take a.length).Sorted (· ≤ ·)
    rw [List.Sorted, List.pairwise_iff_getElem]
    intro u v hu hv huv
    have hu' : u < s2.length := by
      rw [List.length_take] at hu
      omega
    have hv' : v < s2.length := by
      rw [List.length_take] at hv
      omega
    have hvlen : v < a.length := by
      rw [List.length_take] at hv
      omega
    rw [List.getElem_take, List.getElem_take]
    exact hsort u v hu' hv' (by omega) (by omega) (by omega)

/-- Witness for `array_sort_generic_sorts`: the spec scenario `[5, 3, 8, 1]`
under the numeric comparator `cmp(x, y) = x - y` sorts to `[1, 3, 5, 8]`. -/
theorem array_sort_generic_sorts_witness :
    (∃ out, array_sort_generic (fun x y : Int => x - y) ⟨[5, 3, 8, 1], 4⟩ 5
        = some out ∧
      out.live.Perm ((⟨[5, 3, 8, 1], 4⟩ : ArrayStruct Int).live) ∧
      out.live.Sorted (· ≤ ·)) ∧
    array_sort_generic (fun x y : Int => x - y) ⟨[5, 3, 8, 1], 4⟩ 5
      = some ⟨[1, 3, 5, 8], 4⟩ := by
  have hc : Consistent (fun x y : Int => x - y) := by
    intro x y
    show (0 < x - y ↔ y < x) ∧ (x - y < 0 ↔ x < y)
    omega
  refine ⟨?_, by decide⟩
  obtain ⟨out, h1, h2, h3, h4, h5, h6⟩ :=
    array_sort_generic_sorts (fun x y : Int => x - y) hc ⟨[5, 3, 8, 1], 4⟩
      (by decide)
  exact ⟨out, h1, h4, h5⟩

end TsRuntime
